import Mathlib

/-!
Verification of the speaker/queue synchronization engine of the mopidy
Home Assistant integration (`custom_components/mopidy/speaker.py`).

The Python classes `MopidyQueue`, `MopidySpeaker` and `MopidyLibrary` are
shallowly embedded:

* Python dictionaries become insertion-ordered association lists
  (`dlookup` / `dset` / `derase` below mirror `d[k]`, `d[k] = v`, `del d[k]`).
* The remote device (Transport Channel) becomes a record of responses; a
  fetch that raises `requests.exceptions.ConnectionError` is modeled by the
  response `none`.  Command RPCs (stop/clear/add/play/...) are modeled as
  always executed by the device; a command issued is recorded in a `Call`
  trace.
* A Python method that can let an exception escape returns `Except PyExc`
  (or carries a `Option PyExc` field in its result when the mutations done
  before the raise must stay observable); exceptions the source catches
  (`except reConnectionError`) do not appear in the result type.
* Strings handled character-by-character (URL processing) are modeled as
  `List Char`; `datetime.datetime.now().strftime` is modeled by passing the
  current calendar day string as an argument, and `dt_util.utcnow()` by a
  `now : Nat` argument.
-/

namespace Mopidy

/-- Python exceptions that can escape the embedded methods. -/
inductive PyExc where
  | connError          -- requests.exceptions.ConnectionError
  | unboundLocal       -- UnboundLocalError (read of a variable the failed try left unassigned)
  | attributeError     -- AttributeError (e.g. `self.hostname` on MopidyQueue, which has no such attribute)
  | keyError           -- KeyError (dict subscript of a missing key)
  | typeError          -- TypeError (e.g. `None + 1`, `list[None]`, `None > 0`)
  | indexError         -- IndexError (list subscript out of range)
  | missingMediaInformation  -- MissingMediaInformation(BrowseError), raised by play_media
deriving DecidableEq, Repr

/-! ### Python dict as an insertion-ordered association list -/

/-- `d[k]` (as an `Option`): first binding of `k`.  Keys are unique in every
reachable state, mirroring a Python dict. -/
def dlookup [DecidableEq κ] : List (κ × β) → κ → Option β
  | [], _ => none
  | (k', v') :: t, k => if k' = k then some v' else dlookup t k

/-- `d[k] = v`: replace the binding in place, or append a new one. -/
def dset [DecidableEq κ] : List (κ × β) → κ → β → List (κ × β)
  | [], k, v => [(k, v)]
  | (k', v') :: t, k, v => if k' = k then (k, v) :: t else (k', v') :: dset t k v

/-- `del d[k]` (total model: no-op when the key is absent; the source only
deletes keys just enumerated from the dict). -/
def derase [DecidableEq κ] : List (κ × β) → κ → List (κ × β)
  | [], _ => []
  | (k', v') :: t, k => if k' = k then t else (k', v') :: derase t k

/-- `list(d.keys())`. -/
def dkeys (d : List (κ × β)) : List κ := d.map Prod.fst

/-! ### Queue entries

A queue entry is the Python dict `self.queue[tlid]`.  Each field models one
possible key; `none` means the key is absent (the source only ever stores
non-`None` values under these keys, so absence and `None` need not be
distinguished). -/

structure TrackInfo where
  tlid : Option Int := none
  uri : Option String := none
  source : Option String := none
  number : Option Int := none
  duration : Option Nat := none
  album_name : Option String := none
  album_artist : Option String := none
  title : Option String := none
  artist : Option String := none
  index : Option Nat := none
  is_stream : Option Bool := none
  playlist_name : Option String := none
  playlist_uri : Option String := none
deriving DecidableEq, Repr

/-- `old.update(new)` on the entry dict: keys present in `new` overwrite. -/
def TrackInfo.updateWith (old new : TrackInfo) : TrackInfo where
  tlid := new.tlid <|> old.tlid
  uri := new.uri <|> old.uri
  source := new.source <|> old.source
  number := new.number <|> old.number
  duration := new.duration <|> old.duration
  album_name := new.album_name <|> old.album_name
  album_artist := new.album_artist <|> old.album_artist
  title := new.title <|> old.title
  artist := new.artist <|> old.artist
  index := new.index <|> old.index
  is_stream := new.is_stream <|> old.is_stream
  playlist_name := new.playlist_name <|> old.playlist_name
  playlist_uri := new.playlist_uri <|> old.playlist_uri

/-! ### Raw device objects -/

/-- A mopidy `Track` record as delivered over the wire; `none` models an
absent attribute (`hasattr(track, ...) == False`). -/
structure Track where
  uri : Option String := none
  name : Option String := none
  track_no : Option Int := none
  length : Option Nat := none       -- milliseconds
  album_name : Option String := none  -- hasattr(track, "album") and hasattr(track.album, "name")
  artists : Option (List String) := none  -- the artists' names
deriving DecidableEq, Repr

/-- A `TlTrack`: queue item id plus its track. -/
structure TlTrack where
  tlid : Int
  track : Track
deriving DecidableEq, Repr

/-- The state owned by `MopidyQueue` (fields `_current_track_*`,
`_attr_queue_*`, `queue`, `local_url_base`). -/
structure QueueState where
  queue : List (Int × TrackInfo) := []
  local_url_base : Option String := none
  current_track : Option TlTrack := none          -- _attr_current_track
  current_track_tlid : Option Int := none
  current_track_album_artist : Option String := none
  current_track_album_name : Option String := none
  current_track_artist : Option String := none
  current_track_duration : Option Nat := none
  current_track_extension : Option String := none
  current_track_image_url : Option String := none
  current_track_image_remotely_accessible : Option Bool := none
  current_track_playlist_name : Option String := none
  current_track_position : Option Nat := none
  current_track_position_updated_at : Option Nat := none
  current_track_title : Option String := none
  current_track_is_stream : Option Bool := none
  current_track_number : Option Int := none
  current_track_uri : Option String := none
  queue_position : Option Nat := none             -- _attr_queue_position
  queue_size : Option Nat := none                 -- _attr_queue_size
deriving DecidableEq, Repr

namespace MopidyQueue

/-- `MopidyQueue.clear_current_track` (`speaker.py:213`). -/
def clear_current_track (now : Nat) (q : QueueState) : QueueState :=
  { q with
    current_track := none
    current_track_tlid := none
    current_track_album_artist := none
    current_track_album_name := none
    current_track_artist := none
    current_track_duration := none
    current_track_extension := none
    current_track_image_url := none
    current_track_image_remotely_accessible := none
    current_track_playlist_name := none
    current_track_position := none
    current_track_position_updated_at := some now
    current_track_title := none
    current_track_is_stream := none
    current_track_number := none
    current_track_uri := none }

/-- `MopidyQueue.__set_track_info` (`speaker.py:200`): reject a non-int
tlid, create the entry `{"tlid": tlid}` when missing, then merge
`track_info` into it. -/
def set_track_info (q : List (Int × TrackInfo)) (tlid : Option Int)
    (track_info : TrackInfo) : List (Int × TrackInfo) :=
  match tlid with
  | none => q
  | some t =>
    let old := (dlookup q t).getD { tlid := some t }
    dset q t (old.updateWith track_info)

/-- `MopidyQueue.set_current_track_position` (`speaker.py:288`). -/
def set_current_track_position (now : Nat) (value : Nat) (q : QueueState) : QueueState :=
  { q with current_track_position := some value
           current_track_position_updated_at := some now }

/-- `MopidyQueue.set_stream_title` (`speaker.py:297`): override the display
title, mark the current entry as a stream, and merge the override into the
current queue entry (if any). -/
def set_stream_title (q : QueueState) (stream_title : String) : QueueState :=
  let q := { q with current_track_title := some stream_title
                    current_track_is_stream := some true }
  match q.current_track_tlid with
  | none => q
  | some t =>
    let info : TrackInfo := { title := some stream_title, is_stream := some true }
    { q with queue := set_track_info q.queue (some t) info }

/-- The entry dict written for each remote element inside `update_tracks`:
`{"uri": el.track.uri, "index": index}`. -/
def remoteInfo (uri : String) (index : Nat) : TrackInfo :=
  { uri := some uri, index := some index }

/-- The `for el in res` loop of `update_tracks` (`speaker.py:367`):
write `{"uri": el.track.uri, "index": index}` for each remote queue item.
Reading `el.track.uri` on a track with no `uri` attribute raises. -/
def applyRemote (q : List (Int × TrackInfo)) :
    List TlTrack → Nat → Except PyExc (List (Int × TrackInfo))
  | [], _ => .ok q
  | el :: rest, index =>
    match el.track.uri with
    | none => .error .attributeError
    | some u => applyRemote (set_track_info q (some el.tlid) (remoteInfo u index)) rest (index + 1)

/-- `MopidyQueue.update_tracks` (`speaker.py:350`), applied to the result of
`self.api.tracklist.get_tl_tracks()`.  A `none` fetch models a
`ConnectionError`: the handler then evaluates `self.hostname`, an attribute
`MopidyQueue` does not have, so an `AttributeError` escapes. -/
def update_tracks (fetched : Option (List TlTrack)) (qs : QueueState) :
    Except PyExc QueueState :=
  match fetched with
  | none => .error .attributeError
  | some res =>
    let tlid_queue := res.map (fun x => x.tlid)
    let purge_queue := (dkeys qs.queue).filter (fun t => ¬ tlid_queue.contains t)
    match applyRemote qs.queue res 0 with
    | .error e => .error e
    | .ok q1 => .ok { qs with queue := purge_queue.foldl derase q1 }

end MopidyQueue

/-! ### Model of the urllib.parse functions used by `expand_url`

URLs are handled as `List Char`.  `urlparse`/`urlunparse` are modeled by
`urlsplit`/`urlunsplit` with the `params` component folded into `path`:
the source never reads or writes `params` separately, and rejoining
`path;params` is the identity on the split string, so the final URLs are
byte-identical. -/

/-- `url.split(sep)` on char lists. -/
def splitOnChar (sep : Char) : List Char → List (List Char)
  | [] => [[]]
  | c :: rest =>
    match splitOnChar sep rest with
    | [] => [[]]
    | h :: t => if c = sep then [] :: h :: t else (c :: h) :: t

/-- `url.split(sep, 1)`: text before the first `sep`, and the rest when the
separator occurs. -/
def splitOnFirst (sep : Char) : List Char → List Char × Option (List Char)
  | [] => ([], none)
  | c :: rest =>
    if c = sep then ([], some rest)
    else
      let p := splitOnFirst sep rest
      (c :: p.1, p.2)

/-- The characters CPython accepts inside a URL scheme. -/
def schemeChar (c : Char) : Bool := c.isAlphanum || c = '+' || c = '-' || c = '.'

/-- Strip a leading `scheme:` as `urlsplit` does: there must be text before
the first colon, starting with an ASCII letter and made of scheme chars;
the scheme is lowercased. -/
def splitScheme (url : List Char) : List Char × List Char :=
  match splitOnFirst ':' url with
  | (before, some after) =>
    match before with
    | [] => ([], url)
    | c0 :: _ =>
      if c0.isAlpha ∧ before.all schemeChar then (before.map Char.toLower, after)
      else ([], url)
  | (_, none) => ([], url)

/-- The characters that end the netloc. -/
def netlocStop (c : Char) : Bool := c = '/' || c = '?' || c = '#'

/-- `_splitnetloc`: the netloc runs to the first of `/`, `?`, `#`. -/
def splitNetloc (l : List Char) : List Char × List Char :=
  (l.takeWhile (fun c => ¬ netlocStop c), l.dropWhile (fun c => ¬ netlocStop c))

/-- The result of `urlsplit` (with `params` folded into `path`). -/
structure SplitResult where
  scheme : List Char
  netloc : List Char
  path : List Char
  query : List Char
  fragment : List Char
deriving DecidableEq, Repr

/-- `urllib.parse.urlsplit` with default arguments. -/
def urlsplit (url : List Char) : SplitResult :=
  let s := splitScheme url
  let n :=
    if s.2.take 2 = ['/', '/'] then splitNetloc (s.2.drop 2)
    else ([], s.2)
  let f := splitOnFirst '#' n.2
  let fragment := (f.2).getD []
  let q := splitOnFirst '?' f.1
  ⟨s.1, n.1, q.1, (q.2).getD [], fragment⟩

/-- `urllib.parse.urlunsplit`. -/
def urlunsplit (r : SplitResult) : List Char :=
  let url := r.path
  let url :=
    if r.netloc ≠ [] ∨ (url ≠ [] ∧ url.take 2 = ['/', '/']) then
      let url := if url ≠ [] ∧ url.head? ≠ some '/' then '/' :: url else url
      '/' :: '/' :: (r.netloc ++ url)
    else url
  let url := if r.scheme ≠ [] then r.scheme ++ ':' :: url else url
  let url := if r.query ≠ [] then url ++ '?' :: r.query else url
  if r.fragment ≠ [] then url ++ '#' :: r.fragment else url

/-- Uppercase hex digit of a value below 16. -/
def hexUpper (n : Nat) : Char :=
  if n < 10 then Char.ofNat (48 + n) else Char.ofNat (55 + n)

/-- Value of a hex digit character. -/
def hexDigitVal (c : Char) : Option Nat :=
  if '0' ≤ c ∧ c ≤ '9' then some (c.toNat - 48)
  else if 'A' ≤ c ∧ c ≤ 'F' then some (c.toNat - 55)
  else if 'a' ≤ c ∧ c ≤ 'f' then some (c.toNat - 87)
  else none

/-- UTF-8 encoding of one character, as a byte list. -/
def utf8Bytes (c : Char) : List Nat :=
  let n := c.toNat
  if n < 128 then [n]
  else if n < 2048 then [192 + n / 64, 128 + n % 64]
  else if n < 65536 then [224 + n / 4096, 128 + (n / 64) % 64, 128 + n % 64]
  else [240 + n / 262144, 128 + (n / 4096) % 64, 128 + (n / 64) % 64, 128 + n % 64]

/-- The characters `quote` never escapes (letters, digits, `_.-~`). -/
def quoteSafe (c : Char) : Bool := c.isAlphanum || c = '_' || c = '.' || c = '-' || c = '~'

/-- `%XX` encoding of one byte. -/
def pctEncodeByte (n : Nat) : List Char := ['%', hexUpper (n / 16), hexUpper (n % 16)]

/-- `urllib.parse.quote_plus` with empty `safe`: space becomes `+`, safe
characters pass through, everything else is percent-encoded per UTF-8
byte. -/
def quote_plus (l : List Char) : List Char :=
  (l.map (fun c =>
    if c = ' ' then ['+']
    else if quoteSafe c then [c]
    else ((utf8Bytes c).map pctEncodeByte).flatten)).flatten

/-- The replacement character for malformed UTF-8. -/
def replChar : Char := Char.ofNat 65533

/-- Fuel-driven UTF-8 decoder; each step consumes at least one byte, so fuel
equal to the byte count suffices. -/
def utf8DecodeAux : Nat → List Nat → List Char
  | 0, _ => []
  | _, [] => []
  | fuel + 1, b :: rest =>
    if b < 128 then Char.ofNat b :: utf8DecodeAux fuel rest
    else if 194 ≤ b ∧ b ≤ 223 then
      match rest with
      | b1 :: r1 =>
        if 128 ≤ b1 ∧ b1 ≤ 191 then
          Char.ofNat ((b - 192) * 64 + (b1 - 128)) :: utf8DecodeAux fuel r1
        else replChar :: utf8DecodeAux fuel rest
      | [] => [replChar]
    else if 224 ≤ b ∧ b ≤ 239 then
      match rest with
      | b1 :: b2 :: r2 =>
        if (128 ≤ b1 ∧ b1 ≤ 191) ∧ (128 ≤ b2 ∧ b2 ≤ 191) ∧
            (b = 224 → 160 ≤ b1) ∧ (b = 237 → b1 ≤ 159) then
          Char.ofNat ((b - 224) * 4096 + (b1 - 128) * 64 + (b2 - 128)) :: utf8DecodeAux fuel r2
        else replChar :: utf8DecodeAux fuel rest
      | _ => replChar :: utf8DecodeAux fuel rest
    else if 240 ≤ b ∧ b ≤ 244 then
      match rest with
      | b1 :: b2 :: b3 :: r3 =>
        if (128 ≤ b1 ∧ b1 ≤ 191) ∧ (128 ≤ b2 ∧ b2 ≤ 191) ∧ (128 ≤ b3 ∧ b3 ≤ 191) ∧
            (b = 240 → 144 ≤ b1) ∧ (b = 244 → b1 ≤ 143) then
          Char.ofNat ((b - 240) * 262144 + (b1 - 128) * 4096 + (b2 - 128) * 64 + (b3 - 128)) ::
            utf8DecodeAux fuel r3
        else replChar :: utf8DecodeAux fuel rest
      | _ => replChar :: utf8DecodeAux fuel rest
    else replChar :: utf8DecodeAux fuel rest

/-- UTF-8 decoding of a byte list.  A malformed byte yields one replacement
character (CPython's `errors="replace"` can emit a different number of
replacement characters for some malformed runs; no valid escape sequence is
affected). -/
def utf8Decode (l : List Nat) : List Char := utf8DecodeAux l.length l

/-- Tokenize a percent-encoded string: a valid `%XX` escape becomes a byte,
anything else stays a literal character (an invalid escape keeps its `%`, as
in CPython). -/
def pctTokens : List Char → List (Sum Nat Char)
  | [] => []
  | '%' :: a :: b :: rest =>
    match hexDigitVal a, hexDigitVal b with
    | some x, some y => Sum.inl (16 * x + y) :: pctTokens rest
    | _, _ => Sum.inr '%' :: pctTokens (a :: b :: rest)
  | c :: rest => Sum.inr c :: pctTokens rest

/-- Decode the token stream: maximal byte runs are UTF-8-decoded together,
as CPython decodes each maximal run of escapes as one byte string. -/
def decodeTokens (acc : List Nat) : List (Sum Nat Char) → List Char
  | [] => utf8Decode acc.reverse
  | Sum.inl b :: rest => decodeTokens (b :: acc) rest
  | Sum.inr c :: rest => utf8Decode acc.reverse ++ c :: decodeTokens [] rest

/-- `urllib.parse.unquote` with default utf-8/replace handling. -/
def pyUnquote (l : List Char) : List Char :=
  decodeTokens [] (pctTokens l)

/-- `urllib.parse.unquote_plus`. -/
def unquote_plus (l : List Char) : List Char :=
  pyUnquote (l.map (fun c => if c = '+' then ' ' else c))

/-- `urllib.parse.parse_qsl(qs)` with default arguments: split on `&`, skip
empty chunks, chunks without `=` and chunks with an empty value, and
unquote names and values. -/
def parse_qsl (qs : List Char) : List (List Char × List Char) :=
  (splitOnChar '&' qs).filterMap (fun nv =>
    if nv = [] then none
    else
      match splitOnFirst '=' nv with
      | (_, none) => none
      | (name, some value) =>
        if value = [] then none
        else some (unquote_plus name, unquote_plus value))

/-- `urllib.parse.urlencode` on an ordered dict, with the default
`quote_via=quote_plus`. -/
def urlencode (d : List (List Char × List Char)) : List Char :=
  List.intercalate ['&'] (d.map (fun kv => quote_plus kv.1 ++ '=' :: quote_plus kv.2))

/-- `dict(pairs)`: later duplicate keys overwrite in place. -/
def dictOfPairs [DecidableEq κ] (l : List (κ × β)) : List (κ × β) :=
  l.foldl (fun d kv => dset d kv.1 kv.2) []

/-- The cache-bust query key. -/
def moptKey : List Char := ['m', 'o', 'p', 't']

/-- `MopidyQueue.expand_url` (`speaker.py:231`).  The `extension` parameter
is accepted and ignored exactly as in the source.  `today` is the `%Y%m%d`
rendering of `datetime.datetime.now()`. -/
def expand_url (extension : Option String) (local_url_base : List Char)
    (today : List Char) (url : List Char) : List Char :=
  let parsed_url := urlsplit url
  let url := if parsed_url.netloc = [] then local_url_base ++ url else url
  let query := dictOfPairs (parse_qsl parsed_url.query)
  match dlookup query moptKey with
  | some _ => url
  | none =>
    let url_parts := urlsplit url
    let query := dset query moptKey today
    urlunsplit { url_parts with query := urlencode query }

/-! ### The Transport Channel and the rest of the queue pipeline -/

/-- A browse/playlist item carrying `.uri` and `.name`. -/
structure MRef where
  uri : String
  name : String
deriving DecidableEq, Repr

/-- A `playlists.lookup` result (`.name`, `.uri`, `.tracks`). -/
structure PlaylistRec where
  name : String
  uri : String
  tracks : List MRef
deriving DecidableEq, Repr

/-- The Transport Channel: one field per RPC the engine issues.  A `none`
response models the call raising `requests.exceptions.ConnectionError`.
Command RPCs (stop/clear/add/play/seek/pause/set_*) are modeled as accepted
by the device; every issued command is recorded in a `Call` trace by the
command layer. -/
structure Transport where
  get_version : Option String := none                 -- core.get_version
  get_uri_schemes : Option (List String) := none      -- core.get_uri_schemes
  get_consume : Option Bool := none                   -- tracklist.get_consume
  playlists_as_list : Option (List MRef) := none      -- playlists.as_list
  get_volume : Option Int := none                     -- mixer.get_volume
  get_mute : Option Bool := none                      -- mixer.get_mute
  get_random : Option Bool := none                    -- tracklist.get_random
  get_state : Option String := none                   -- playback.get_state
  get_repeat : Option Bool := none                    -- tracklist.get_repeat
  get_single : Option Bool := none                    -- tracklist.get_single
  tracklist_index : Option (Option Nat) := none       -- tracklist.index (inner none: no current)
  get_length : Option Nat := none                     -- tracklist.get_length
  get_tl_tracks : Option (List TlTrack) := none       -- tracklist.get_tl_tracks
  get_current_tl_track : Option (Option TlTrack) := none  -- playback.get_current_tl_track
  get_time_position : Option Nat := none              -- playback.get_time_position (ms)
  get_stream_title : Option (Option String) := none   -- playback.get_stream_title
  get_images : Option (List (String × List String)) := none  -- library.get_images
  browse : String → Option (List MRef) := fun _ => none       -- library.browse
  playlists_lookup : String → Option PlaylistRec := fun _ => none  -- playlists.lookup
  tracklist_add : List String → Option Nat → List TlTrack := fun _ _ => []  -- tracklist.add
  ws_alive : Bool := true                             -- api.wsclient.wsthread.is_alive()

/-- Every fetch the engine can issue fails with a connection error: the
device is down. -/
def Transport.allDown (dev : Transport) : Prop :=
  dev.get_version = none ∧ dev.get_uri_schemes = none ∧ dev.get_consume = none ∧
  dev.playlists_as_list = none ∧ dev.get_volume = none ∧ dev.get_mute = none ∧
  dev.get_random = none ∧ dev.get_state = none ∧ dev.get_repeat = none ∧
  dev.get_single = none ∧ dev.tracklist_index = none ∧ dev.get_length = none ∧
  dev.get_tl_tracks = none ∧ dev.get_current_tl_track = none ∧
  dev.get_time_position = none ∧ dev.get_stream_title = none ∧
  dev.get_images = none ∧ (∀ u, dev.browse u = none) ∧
  (∀ u, dev.playlists_lookup u = none)

/-- `s.partition(":")[0]`: the URI scheme prefix. -/
def partitionScheme (s : String) : String :=
  ((splitOnFirst ':' s.toList).1).asString

/-- `", ".join(x.name for x in track.artists)`. -/
def joinNames (l : List String) : String := String.intercalate ", " l

namespace MopidyQueue

/-- `MopidyQueue.parse_track_info` (`speaker.py:247`): build the entry dict
from the attributes the raw track carries, merge it under `tlid`, and, when
`current`, repopulate the `_current_track_*` fields from `self.queue[tlid]`
(which raises `KeyError` when `tlid` was rejected as invalid). -/
def parse_track_info (track : Track) (tlid : Option Int) (current : Bool)
    (q : QueueState) : Except PyExc QueueState :=
  let track_info : TrackInfo :=
    { tlid := tlid
      uri := track.uri
      source := track.uri.map partitionScheme
      number := track.track_no
      duration := track.length.map (fun v => v / 1000)
      album_name := track.album_name
      album_artist := track.artists.map joinNames
      title := track.name
      artist := track.artists.map joinNames }
  let q1 := { q with queue := set_track_info q.queue tlid track_info }
  if current then
    match tlid with
    | none => .error .keyError
    | some t =>
      match dlookup q1.queue t with
      | none => .error .keyError
      | some e =>
        .ok { q1 with
          current_track_tlid := some t
          current_track_uri := e.uri
          current_track_album_artist := e.album_artist
          current_track_album_name := e.album_name
          current_track_artist := e.artist
          current_track_duration := e.duration
          current_track_extension := e.source
          current_track_playlist_name := e.playlist_name
          current_track_title := e.title
          current_track_is_stream := e.is_stream
          current_track_number := e.number }
  else .ok q1

/-- `__get_current_track_position` (`speaker.py:142`): a `ConnectionError`
is caught and logged, but `current_media_position` is read unconditionally
afterwards, so the failure escapes as `UnboundLocalError`. -/
def get_current_track_position (dev : Transport) (now : Nat) (q : QueueState) :
    Except PyExc QueueState :=
  match dev.get_time_position with
  | none => .error .unboundLocal
  | some pos => .ok (set_current_track_position now (pos / 1000) q)

/-- `__get_track_image` (`speaker.py:171`): on a `ConnectionError` the
handler logs and then reads `current_image` anyway, so the failure escapes
as `UnboundLocalError`.  Image records are modeled by their `.uri`, so the
`hasattr` guard always holds. -/
def get_track_image (dev : Transport) (today : List Char) (uri : Option String)
    (q : QueueState) : Except PyExc (Option String) :=
  match uri with
  | none => .ok none
  | some u =>
    match dev.get_images with
    | none => .error .unboundLocal
    | some imgs =>
      match dlookup imgs u with
      | some (img0 :: _) =>
        .ok (some (expand_url q.current_track_extension
          ((q.local_url_base.getD "None").toList) today img0.toList).asString)
      | _ =>
        -- both the `elif self._current_track_is_stream` branch and the
        -- warning branch leave `image_url = None`
        .ok none

/-- `__get_current_track_stream_info` (`speaker.py:154`). -/
def get_current_track_stream_info (dev : Transport) (q : QueueState) :
    Except PyExc QueueState :=
  match dev.get_stream_title with
  | none => .ok q   -- caught: log and return
  | some current_stream_title =>
    match q.current_track_tlid with
    | none => .ok q
    | some t =>
      match dlookup q.queue t with
      | none => .error .keyError   -- `self.queue[self._current_track_tlid]`
      | some _ =>
        match current_stream_title with
        | some st => .ok (set_stream_title q st)
        | none => .ok { q with current_track_is_stream := some false }

/-- `update_current_image_url` (`speaker.py:339`). -/
def update_current_image_url (dev : Transport) (today : List Char)
    (uri : Option String) (q : QueueState) : Except PyExc QueueState :=
  let uri := match uri with
    | none => q.current_track_uri
    | some u => some u
  match get_track_image dev today uri q with
  | .error e => .error e
  | .ok img =>
    .ok { q with current_track_image_url := img
                 current_track_image_remotely_accessible := some false }

/-- `update_current_track` (`speaker.py:314`), with no `updater` callback. -/
def update_current_track (dev : Transport) (now : Nat) (today : List Char)
    (q : QueueState) : Except PyExc QueueState :=
  match dev.get_current_tl_track with
  | none => .ok q   -- caught: log and return
  | some current_track =>
    let q := { q with current_track := current_track }
    match current_track with
    | none => .ok q  -- hasattr(None, "track") is false
    | some tl =>
      match parse_track_info tl.track (some tl.tlid) true q with
      | .error e => .error e
      | .ok q =>
        match update_current_image_url dev today none q with
        | .error e => .error e
        | .ok q =>
          match get_current_track_position dev now q with
          | .error e => .error e
          | .ok q => get_current_track_stream_info dev q

/-- `update_queue_information` (`speaker.py:395`): both fetches catch the
`ConnectionError`, but the handlers then evaluate `self.hostname`, an
attribute `MopidyQueue` does not have, so an `AttributeError` escapes (the
`self._attr_is_available = False` they run first lands on the queue object
and is dead state). -/
def update_queue_information (dev : Transport) (q : QueueState) :
    Except PyExc QueueState :=
  match dev.tracklist_index with
  | none => .error .attributeError
  | some idx =>
    match dev.get_length with
    | none => .error .attributeError
    | some len => .ok { q with queue_position := idx, queue_size := some len }

/-- `MopidyQueue.update` (`speaker.py:309`). -/
def update (dev : Transport) (now : Nat) (today : List Char) (q : QueueState) :
    Except PyExc QueueState :=
  match update_queue_information dev q with
  | .error e => .error e
  | .ok q =>
    match update_tracks dev.get_tl_tracks q with
    | .error e => .error e
    | .ok q => update_current_track dev now today q

end MopidyQueue

/-! ### The speaker: state, poll refresh, and commands -/

/-- The `homeassistant` `MediaPlayerState` values the engine produces. -/
inductive MPState where
  | playing
  | paused
  | idle
deriving DecidableEq, Repr

/-- The `homeassistant` `RepeatMode` tri-state. -/
inductive RepeatMode where
  | off
  | all
  | one
deriving DecidableEq, Repr

/-- The snapshot dict built by `take_snapshot` (`speaker.py:953`).  Every
key is always present; a `none` field value models the Python value
`None`. -/
structure Snapshot where
  mediaposition : Option Nat := none
  muted : Option Bool := none
  repeat_mode : Option RepeatMode := none
  shuffled : Option Bool := none
  state : Option MPState := none
  queue_list : List String := []
  queue_index : Option Nat := none
  volume : Option Int := none
deriving DecidableEq, Repr

/-- The state owned by `MopidySpeaker` (`_attr_*`, `snapshot`, the queue). -/
structure SpeakerState where
  is_available : Bool := false
  software_version : Option String := none
  supported_uri_schemes : Option (List String) := none
  consume_mode : Option Bool := none
  source_list : Option (List String) := none
  volume_level : Option Int := none
  is_volume_muted : Option Bool := none
  state : Option MPState := none
  repeat_mode : Option RepeatMode := none
  shuffle : Option Bool := none
  snapshot : Option Snapshot := none
  snapshot_at : Option Nat := none
  first_failure : Bool := true
  queue : QueueState := {}
deriving DecidableEq, Repr

/-- One Transport Channel command/request issued by the command layer. -/
inductive Call where
  | libraryBrowse (uri : String)
  | playlistsLookup (uri : String)
  | playbackStop
  | tracklistClear
  | tracklistAdd (uris : List String) (at_position : Option Nat)
  | playbackPlay (tlid : Option Int)
  | getTlTracks
  | playbackGetState
  | playbackSeek (pos : Nat)
  | playbackPause
  | mixerSetVolume (v : Int)
  | mixerSetMute (m : Option Bool)
  | tracklistSetConsume (b : Bool)
  | tracklistSetRepeat (b : Bool)
  | tracklistSetSingle (b : Bool)
deriving DecidableEq, Repr

/-- The calls that mutate the device queue or playback: stop, clear, add,
play. -/
def Call.isQueueMutation : Call → Bool
  | .playbackStop => true
  | .tracklistClear => true
  | .tracklistAdd _ _ => true
  | .playbackPlay _ => true
  | _ => false

/-- The outcome of one embedded command method: the calls it issued (in
order), the object state it left behind, and the exception that escaped, if
any.  Mutations done before a raise stay visible in `state`, as they do on
the Python object. -/
structure CmdResult where
  calls : List Call
  state : SpeakerState
  exc : Option PyExc
deriving Repr

namespace MopidySpeaker

/-- `__eval_state` (`speaker.py:603`). -/
def eval_state (PlaybackState : Option String) : Option MPState :=
  match PlaybackState with
  | none => none
  | some s =>
    if s = "playing" then some .playing
    else if s = "paused" then some .paused
    else if s = "stopped" then some .idle
    else none

/-- `__clear` (`speaker.py:566`). -/
def clear (s : SpeakerState) : SpeakerState :=
  { s with
    software_version := none
    supported_uri_schemes := none
    consume_mode := none
    source_list := none
    volume_level := none
    is_volume_muted := none
    state := none
    repeat_mode := none
    shuffle := none
    is_available := false }

/-- `__get_software_version` (`speaker.py:677`): the liveness probe; success
sets `available`, failure clears it. -/
def get_software_version (dev : Transport) (s : SpeakerState) : SpeakerState :=
  match dev.get_version with
  | some v => { s with software_version := some v, is_available := true }
  | none => { s with is_available := false }

/-- `__get_supported_uri_schemes` (`speaker.py:691`). -/
def get_supported_uri_schemes (dev : Transport) (s : SpeakerState) : SpeakerState :=
  match dev.get_uri_schemes with
  | some l => { s with supported_uri_schemes := some l }
  | none => { s with is_available := false }

/-- `__get_consume_mode` (`speaker.py:616`), with the first-failure log
latch (re-armed on success). -/
def get_consume_mode (dev : Transport) (s : SpeakerState) : SpeakerState :=
  match dev.get_consume with
  | some c => { s with consume_mode := some c, first_failure := true }
  | none => { s with is_available := false, first_failure := false }

/-- `__get_source_list` (`speaker.py:703`): the one fetch with no
`try`/`except` — a `ConnectionError` from `playlists.as_list` escapes. -/
def get_source_list (dev : Transport) (s : SpeakerState) :
    Except PyExc SpeakerState :=
  match dev.playlists_as_list with
  | none => .error .connError
  | some pls => .ok { s with source_list := some (pls.map (fun x => x.name)) }

/-- `__get_volume` (`speaker.py:721`): two independently guarded fetches. -/
def get_volume (dev : Transport) (s : SpeakerState) : SpeakerState :=
  let s := match dev.get_volume with
    | some v => { s with volume_level := some v }
    | none => { s with is_available := false }
  match dev.get_mute with
  | some m => { s with is_volume_muted := some m }
  | none => { s with is_available := false }

/-- `__get_shuffle_mode` (`speaker.py:665`). -/
def get_shuffle_mode (dev : Transport) (s : SpeakerState) : SpeakerState :=
  match dev.get_random with
  | some b => { s with shuffle := some b }
  | none => { s with is_available := false }

/-- `__get_state` (`speaker.py:707`). -/
def get_state (dev : Transport) (s : SpeakerState) : SpeakerState :=
  match dev.get_state with
  | some st => { s with state := eval_state (some st) }
  | none => { s with is_available := false }

/-- The decode half of the repeat/single mapping (`speaker.py:658`). -/
def repeat_mode_of (rpt single : Bool) : RepeatMode :=
  if rpt && single then .one
  else if rpt && !single then .all
  else .off

/-- `__get_repeat_mode` (`speaker.py:636`): both fetches catch the
`ConnectionError`, but the combination step then reads the locals the
failed `try` left unassigned: an unassigned `repeat` — or an unassigned
`single` with `repeat` truthy — escapes as `UnboundLocalError`; with
`repeat` false the `and` short-circuits and the mode degrades to Off. -/
def get_repeat_mode (dev : Transport) (s : SpeakerState) :
    Except PyExc SpeakerState :=
  match dev.get_repeat, dev.get_single with
  | none, _ => .error .unboundLocal
  | some r, none =>
    if r then .error .unboundLocal
    else .ok { s with is_available := false, repeat_mode := some .off }
  | some r, some sg => .ok { s with repeat_mode := some (repeat_mode_of r sg) }

/-- `MopidySpeaker.update` (`speaker.py:968`): liveness probe; full reset
and early return when the probe failed; websocket liveness check (the
reconnect recreates the api object and has no modeled state); the field
fetches in source order; then the queue sync. -/
def update (dev : Transport) (now : Nat) (today : List Char) (s : SpeakerState) :
    Except PyExc SpeakerState :=
  let s := get_software_version dev s
  if ¬ s.is_available then
    .ok { clear s with queue := MopidyQueue.clear_current_track now s.queue }
  else
    let s := get_supported_uri_schemes dev s
    let s := get_consume_mode dev s
    match get_source_list dev s with
    | .error e => .error e
    | .ok s =>
      let s := get_volume dev s
      let s := get_shuffle_mode dev s
      let s := get_state dev s
      match get_repeat_mode dev s with
      | .error e => .error e
      | .ok s =>
        match MopidyQueue.update dev now today s.queue with
        | .error e => .error e
        | .ok q => .ok { s with queue := q }

/-- `set_volume` (`speaker.py:939`): `None` is a no-op; otherwise the value
is clamped into `[0, 100]`, the clamped value is sent to the mixer and
cached. -/
def set_volume (s : SpeakerState) (value : Option Int) : SpeakerState × List Call :=
  match value with
  | none => (s, [])
  | some v =>
    if v ≥ 100 then ({ s with volume_level := some 100 }, [.mixerSetVolume 100])
    else if v ≤ 0 then ({ s with volume_level := some 0 }, [.mixerSetVolume 0])
    else ({ s with volume_level := some v }, [.mixerSetVolume v])

/-- `volume_down` (`speaker.py:992`). -/
def volume_down (s : SpeakerState) : SpeakerState × List Call :=
  match s.volume_level with
  | none => (s, [])
  | some v => set_volume s (some (v - 5))

/-- `volume_up` (`speaker.py:997`). -/
def volume_up (s : SpeakerState) : SpeakerState × List Call :=
  match s.volume_level with
  | none => (s, [])
  | some v => set_volume s (some (v + 5))

/-- `set_mute` (`speaker.py:917`). -/
def set_mute (s : SpeakerState) (value : Option Bool) : SpeakerState × List Call :=
  (s, [.mixerSetMute value])

/-- An argument value as seen by `isinstance(value, bool)`. -/
inductive PyObj where
  | pybool (b : Bool)
  | nonBool
deriving DecidableEq, Repr

/-- `set_consume_mode` (`speaker.py:907`): a non-boolean returns `False`; a
boolean equal to the cached mode falls through (returning `None`); a
changed boolean is cached and sent to the device.  (The
`entity.force_update_ha_state()` notification is not a Transport call and is
not modeled.)  The third component is the Python return value. -/
def set_consume_mode (s : SpeakerState) (value : PyObj) :
    SpeakerState × List Call × Option Bool :=
  match value with
  | .nonBool => (s, [], some false)
  | .pybool b =>
    if some b ≠ s.consume_mode then
      ({ s with consume_mode := some b }, [.tracklistSetConsume b], none)
    else (s, [], none)

/-- `set_repeat_mode` (`speaker.py:921`): the encode half of the
repeat/single mapping, as the pair of booleans sent to the device. -/
def set_repeat_mode (value : RepeatMode) : List Call :=
  match value with
  | .all => [.tracklistSetRepeat true, .tracklistSetSingle false]
  | .one => [.tracklistSetRepeat true, .tracklistSetSingle true]
  | .off => [.tracklistSetRepeat false, .tracklistSetSingle false]

/-- `media_play` (`speaker.py:778`): with no index, bare `play()`; with an
index, resolve `get_tl_tracks()[index].tlid` inside a catch-all
`except Exception` (an out-of-range index or a down device only logs). -/
def media_play (dev : Transport) (s : SpeakerState) (index : Option Nat) : CmdResult :=
  match index with
  | none => ⟨[.playbackPlay none], s, none⟩
  | some i =>
    match dev.get_tl_tracks with
    | none => ⟨[.getTlTracks], s, none⟩
    | some ts =>
      match ts[i]? with
      | none => ⟨[.getTlTracks], s, none⟩
      | some tl => ⟨[.getTlTracks, .playbackPlay (some tl.tlid)], s, none⟩

/-- `queue_tracks` (`speaker.py:854`): nothing happens on an empty uri
list; otherwise `tracklist.add` is issued and the queue model is
re-reconciled.  The second component is the Python return value (the new
`TlTrack`s). -/
def queue_tracks (dev : Transport) (s : SpeakerState) (uris : List String)
    (at_position : Option Nat) : CmdResult × List TlTrack :=
  if uris.length > 0 then
    let ret := dev.tracklist_add uris at_position
    match MopidyQueue.update_tracks dev.get_tl_tracks s.queue with
    | .error e => (⟨[.tracklistAdd uris at_position, .getTlTracks], s, some e⟩, ret)
    | .ok q => (⟨[.tracklistAdd uris at_position, .getTlTracks], { s with queue := q }, none⟩, ret)
  else (⟨[], s, none⟩, [])

/-- The media type argument of `play_media` as compared against
`MediaClass.PLAYLIST` / `MediaClass.DIRECTORY`. -/
inductive MediaTy where
  | playlist
  | directory
  | track
deriving DecidableEq, Repr

/-- The enqueue argument: `kwargs.get(ATTR_MEDIA_ENQUEUE, REPLACE)`;
`unknown` stands for any value that is none of the four enum members. -/
inductive PEnqueue where
  | add
  | next
  | play
  | replace
  | unknown
deriving DecidableEq, Repr

/-- The uri-resolution prefix of `play_media` (`speaker.py:810`):
playlists expand through `get_playlist_track_uris` (m3u playlists through
`playlists.lookup`, others through `browse`), directories through `browse`,
anything else to the one-element list. -/
def resolve_media_uris (dev : Transport) (media_type : MopidySpeaker.MediaTy) (media_id : String) :
    List Call × Except PyExc (List String) :=
  match media_type with
  | .track => ([], .ok [media_id])
  | .playlist =>
    if partitionScheme media_id = "m3u" then
      match dev.playlists_lookup media_id with
      | none => ([.playlistsLookup media_id], .error .connError)
      | some pl => ([.playlistsLookup media_id], .ok (pl.tracks.map (fun x => x.uri)))
    else
      match dev.browse media_id with
      | none => ([.libraryBrowse media_id], .error .connError)
      | some items => ([.libraryBrowse media_id], .ok (items.map (fun x => x.uri)))
  | .directory =>
    match dev.browse media_id with
    | none => ([.libraryBrowse media_id], .error .connError)
    | some items => ([.libraryBrowse media_id], .ok (items.map (fun x => x.uri)))

/-- `update_queued_tracks` (`speaker.py:380`): re-reconcile, then, for a
playlist, attach the playlist name/uri to the freshly queued tlids. -/
def update_queued_tracks (dev : Transport) (s : SpeakerState) (media_id : String)
    (media_type : MediaTy) (tracks : List TlTrack) : CmdResult :=
  match MopidyQueue.update_tracks dev.get_tl_tracks s.queue with
  | .error e => ⟨[.getTlTracks], s, some e⟩
  | .ok q =>
    let s := { s with queue := q }
    match media_type with
    | .playlist =>
      match dev.playlists_lookup media_id with
      | none => ⟨[.getTlTracks, .playlistsLookup media_id], s, some .connError⟩
      | some res =>
        let q2 := tracks.foldl (fun qq tl =>
          MopidyQueue.set_track_info qq (some tl.tlid)
            { tlid := some tl.tlid, playlist_name := some res.name,
              playlist_uri := some res.uri }) s.queue.queue
        ⟨[.getTlTracks, .playlistsLookup media_id],
          { s with queue := { s.queue with queue := q2 } }, none⟩
    | _ => ⟨[.getTlTracks], s, none⟩

/-- The enqueue-mode branch of `play_media` (`speaker.py:817`), returning
also the `queued` list the final `update_queued_tracks` call needs. -/
def play_media_branch (dev : Transport) (s : SpeakerState) (media_uris : List String)
    (enqueue : PEnqueue) : CmdResult × List TlTrack :=
  match enqueue with
  | .add =>
    let r := queue_tracks dev s media_uris none
    match r.1.exc with
    | some _ => r
    | none =>
      if r.1.state.state ≠ some MPState.playing then
        let rp := media_play dev r.1.state none
        (⟨r.1.calls ++ rp.calls, rp.state, rp.exc⟩, r.2)
      else r
  | .next =>
    -- `index = self.queue.position; at_position=index+1`: a missing
    -- position makes `None + 1` raise TypeError
    match s.queue.queue_position with
    | none => (⟨[], s, some .typeError⟩, [])
    | some i =>
      let r := queue_tracks dev s media_uris (some (i + 1))
      match r.1.exc with
      | some _ => r
      | none =>
        if r.1.state.state ≠ some MPState.playing then
          let rp := media_play dev r.1.state none
          (⟨r.1.calls ++ rp.calls, rp.state, rp.exc⟩, r.2)
        else r
  | .play =>
    let index := s.queue.queue_position
    let index := if index = none ∧ s.queue.queue_size ≠ none then s.queue.queue_size else index
    let r := queue_tracks dev s media_uris index
    match r.1.exc with
    | some _ => r
    | none =>
      let rp := media_play dev r.1.state index
      (⟨r.1.calls ++ rp.calls, rp.state, rp.exc⟩, r.2)
  | .replace =>
    -- media_stop(); clear_queue(); queue_tracks(...); media_play()
    let r := queue_tracks dev s media_uris none
    match r.1.exc with
    | some _ => (⟨.playbackStop :: .tracklistClear :: r.1.calls, r.1.state, r.1.exc⟩, r.2)
    | none =>
      let rp := media_play dev r.1.state none
      (⟨.playbackStop :: .tracklistClear :: (r.1.calls ++ rp.calls), rp.state, rp.exc⟩, r.2)
  | .unknown => (⟨[], s, some .missingMediaInformation⟩, [])

/-- `play_media` (`speaker.py:805`): resolve the uris, dispatch on the
enqueue mode (an unknown mode raises `MissingMediaInformation`), then tell
the queue model about the freshly queued tracks. -/
def play_media (dev : Transport) (s : SpeakerState) (media_type : MediaTy)
    (media_id : String) (enqueue : PEnqueue) : CmdResult :=
  let r0 := resolve_media_uris dev media_type media_id
  match r0.2 with
  | .error e => ⟨r0.1, s, some e⟩
  | .ok media_uris =>
    let br := play_media_branch dev s media_uris enqueue
    match br.1.exc with
    | some e => ⟨r0.1 ++ br.1.calls, br.1.state, some e⟩
    | none =>
      let rq := update_queued_tracks dev br.1.state media_id media_type br.2
      ⟨r0.1 ++ br.1.calls ++ rq.calls, rq.state, rq.exc⟩

/-- The restore wait loop (`speaker.py:879`): poll `playback.get_state`
until it reports playing/paused, give up after the iteration with
`count >= 120`.  The fuel argument only bounds the recursion; called with
fuel 121 it cannot run out before the counter check fires.  Device
responses are modeled time-invariant. -/
def wait_for_playback (dev : Transport) : Nat → Nat → List Call × Option Bool
  | 0, _ => ([], some false)
  | fuel + 1, count =>
    match dev.get_state with
    | none => ([.playbackGetState], none)   -- ConnectionError escapes
    | some st =>
      if st = "playing" ∨ st = "paused" then ([.playbackGetState], some true)
      else if count ≥ 120 then ([.playbackGetState], some false)
      else
        let r := wait_for_playback dev fuel (count + 1)
        (.playbackGetState :: r.1, r.2)

/-- `restore_snapshot` (`speaker.py:862`): no-op without a snapshot; stop,
clear, re-enqueue, volume, mute; for a captured playing/paused state, start
playback at the captured index, wait, seek, maybe pause, and discard the
snapshot.  The discard statements sit inside the playing/paused branch in
the source. -/
def restore_snapshot (dev : Transport) (s : SpeakerState) : CmdResult :=
  match s.snapshot with
  | none => ⟨[], s, none⟩
  | some snap =>
    let pre : List Call := [.playbackStop, .tracklistClear]
    let r1 := queue_tracks dev s snap.queue_list none
    match r1.1.exc with
    | some e => ⟨pre ++ r1.1.calls, r1.1.state, some e⟩
    | none =>
      let sv := set_volume r1.1.state snap.volume
      let sm := set_mute sv.1 snap.muted
      let s3 := sm.1
      let calls3 := pre ++ r1.1.calls ++ sv.2 ++ sm.2
      if snap.state = some MPState.playing ∨ snap.state = some MPState.paused then
        match dev.get_tl_tracks with
        | none => ⟨calls3 ++ [.getTlTracks], s3, some .connError⟩
        | some current_tracks =>
          match snap.queue_index with
          | none => ⟨calls3 ++ [.getTlTracks], s3, some .typeError⟩  -- list[None]
          | some qi =>
            match current_tracks[qi]? with
            | none => ⟨calls3 ++ [.getTlTracks], s3, some .indexError⟩
            | some tl =>
              let w := wait_for_playback dev 121 0
              let calls4 := calls3 ++ [.getTlTracks, .playbackPlay (some tl.tlid)] ++ w.1
              match w.2 with
              | none => ⟨calls4, s3, some .connError⟩
              | some false => ⟨calls4, { s3 with snapshot := none }, none⟩  -- timeout: discard, return
              | some true =>
                match snap.mediaposition with
                | none => ⟨calls4, s3, some .typeError⟩  -- `None > 0`
                | some p =>
                  let seekCalls : List Call := if p > 0 then [.playbackSeek p] else []
                  let pauseCalls : List Call :=
                    if snap.state = some MPState.paused then [.playbackPause] else []
                  ⟨calls4 ++ seekCalls ++ pauseCalls,
                    { s3 with snapshot := none, snapshot_at := none }, none⟩
      else
        -- the `self.snapshot = None` discard is nested inside the branch
        -- above: a captured Idle state keeps the snapshot
        ⟨calls3, s3, none⟩

end MopidySpeaker

/-! ### Auxiliary definitions for the stated properties, and concrete
inputs used by the witnesses -/

/-- The cached-volume invariant: unset, or within `[0, 100]`. -/
def volumeOk (o : Option Int) : Bool :=
  match o with
  | none => true
  | some v => decide (0 ≤ v) && decide (v ≤ 100)

/-- One cached-volume command. -/
inductive VolOp where
  | setVol (v : Option Int)
  | up
  | down
deriving DecidableEq, Repr

/-- Run a sequence of volume commands against the speaker state. -/
def run_vol_ops (s : SpeakerState) : List VolOp → SpeakerState
  | [] => s
  | op :: rest =>
    let s' := match op with
      | .setVol v => (MopidySpeaker.set_volume s v).1
      | .up => (MopidySpeaker.volume_up s).1
      | .down => (MopidySpeaker.volume_down s).1
    run_vol_ops s' rest

/-- A fully down device: every response field is `none`. -/
def c1dev : Transport := {}

/-- A fresh speaker state for the C1 witness. -/
def c1s : SpeakerState := {}

/-- A device whose library holds an empty directory and an empty queue. -/
def c3dev : Transport := { browse := fun _ => some [], get_tl_tracks := some [] }

/-- A fresh speaker state for C3. -/
def c3s : SpeakerState := {}

/-- A snapshot captured in the Idle state. -/
def c4snap : Snapshot :=
  { mediaposition := some 0
    muted := some false
    repeat_mode := some .off
    shuffled := some false
    state := some .idle
    queue_list := ["local:track:a"]
    queue_index := some 0
    volume := some 40 }

/-- A device for the C4 restore run. -/
def c4dev : Transport :=
  { get_tl_tracks := some [{ tlid := 1, track := { uri := some "local:track:a" } }] }

/-- A speaker state holding the Idle snapshot. -/
def c4s : SpeakerState := { snapshot := some c4snap }

/-- A device/state pair for the C8 witness (no snapshot held). -/
def c8dev : Transport := {}

/-- A speaker state with no stored snapshot. -/
def c8s : SpeakerState := {}

/-- A speaker state for the C9 witness. -/
def c9s : SpeakerState := {}

/-- A speaker state with a cached consume mode for the C10 witness. -/
def c10s : SpeakerState := { consume_mode := some true }

/-- Concrete queue state for the C2 witness: two stale entries. -/
def c2qs : QueueState :=
  { queue := [(1, { tlid := some 1, uri := some "local:track:a", title := some "old" }),
              (2, { tlid := some 2, uri := some "local:track:b" })] }

/-- Concrete remote snapshot for the C2 witness: tlid 2 survives, tlid 3 is
new, tlid 1 must be purged. -/
def c2res : List TlTrack :=
  [{ tlid := 2, track := { uri := some "local:track:b" } },
   { tlid := 3, track := { uri := some "local:track:c" } }]

/-- Concrete queue state for the C6 witness: tlid 7 is current. -/
def c6qs : QueueState :=
  { queue := [(7, { tlid := some 7, uri := some "http:radio", title := some "station" })]
    current_track_tlid := some 7 }

/-- Concrete remote snapshot for the C6 witness: tlid 7 is still listed. -/
def c6res : List TlTrack :=
  [{ tlid := 7, track := { uri := some "http:radio" } }]

/-- The raw query component of a URL string: the text after the first `?`
of the part before the first `#`.  (`urlsplit` computes exactly this; see
`urlsplit_query_eq_extract`.) -/
def extractQuery (s : List Char) : List Char :=
  ((splitOnFirst '?' (splitOnFirst '#' s).1).2).getD []

/-! ### Dictionary lemmas -/

theorem orElse_some_left (a : α) (b : Option α) : (some a <|> b) = some a := rfl

theorem orElse_none_left (b : Option α) : ((none : Option α) <|> b) = b := rfl

theorem dkeys_cons (p : κ × β) (t : List (κ × β)) : dkeys (p :: t) = p.1 :: dkeys t := rfl

theorem dset_cons_self [DecidableEq κ] (hd : κ × β) (t : List (κ × β)) (v : β) :
    dset (hd :: t) hd.1 v = (hd.1, v) :: t := by
  simp [dset]

theorem dset_cons_ne [DecidableEq κ] (hd : κ × β) (t : List (κ × β)) (k : κ) (v : β)
    (h : hd.1 ≠ k) : dset (hd :: t) k v = hd :: dset t k v := by
  simp [dset, h]

theorem derase_cons_self [DecidableEq κ] (hd : κ × β) (t : List (κ × β)) :
    derase (hd :: t) hd.1 = t := by
  simp [derase]

theorem derase_cons_ne [DecidableEq κ] (hd : κ × β) (t : List (κ × β)) (k : κ)
    (h : hd.1 ≠ k) : derase (hd :: t) k = hd :: derase t k := by
  simp [derase, h]

theorem dlookup_dset_self [DecidableEq κ] (d : List (κ × β)) (k : κ) (v : β) :
    dlookup (dset d k v) k = some v := by
  induction d with
  | nil => simp [dset, dlookup]
  | cons h t ih =>
    by_cases hk : h.1 = k <;> simp [dset, dlookup, hk, ih]

theorem dlookup_dset_ne [DecidableEq κ] (d : List (κ × β)) (k k' : κ) (v : β)
    (h : k' ≠ k) : dlookup (dset d k v) k' = dlookup d k' := by
  induction d with
  | nil => simp [dset, dlookup, Ne.symm h]
  | cons hd t ih =>
    by_cases hk : hd.1 = k
    · simp [dset, dlookup, hk, Ne.symm h]
    · simp [dset, dlookup, hk, ih]

theorem mem_dkeys_dset [DecidableEq κ] (d : List (κ × β)) (k a : κ) (v : β) :
    a ∈ dkeys (dset d k v) ↔ a = k ∨ a ∈ dkeys d := by
  induction d with
  | nil => simp [dset, dkeys]
  | cons hd t ih =>
    by_cases hk : hd.1 = k
    · subst hk
      rw [dset_cons_self, dkeys_cons, dkeys_cons]
      simp only [List.mem_cons]
      tauto
    · rw [dset_cons_ne hd t k v hk, dkeys_cons, dkeys_cons]
      simp only [List.mem_cons, ih]
      tauto

theorem dlookup_eq_none_iff [DecidableEq κ] (d : List (κ × β)) (k : κ) :
    dlookup d k = none ↔ k ∉ dkeys d := by
  induction d with
  | nil => simp [dlookup, dkeys]
  | cons hd t ih =>
    rw [dkeys_cons]
    by_cases hk : hd.1 = k
    · simp [dlookup, hk]
    · simp [dlookup, hk, ih, Ne.symm hk]

theorem dlookup_isSome_iff_mem [DecidableEq κ] (d : List (κ × β)) (k : κ) :
    (dlookup d k).isSome ↔ k ∈ dkeys d := by
  rw [← Option.ne_none_iff_isSome, not_iff_comm, ← dlookup_eq_none_iff]

theorem nodup_dkeys_dset [DecidableEq κ] (d : List (κ × β)) (k : κ) (v : β)
    (h : (dkeys d).Nodup) : (dkeys (dset d k v)).Nodup := by
  induction d with
  | nil => simp [dset, dkeys]
  | cons hd t ih =>
    rw [dkeys_cons, List.nodup_cons] at h
    by_cases hk : hd.1 = k
    · subst hk
      rw [dset_cons_self, dkeys_cons, List.nodup_cons]
      exact ⟨h.1, h.2⟩
    · rw [dset_cons_ne hd t k v hk, dkeys_cons, List.nodup_cons]
      refine ⟨fun hmem => ?_, ih h.2⟩
      rcases (mem_dkeys_dset t k hd.1 v).1 hmem with h1 | h1
      · exact hk h1
      · exact h.1 h1

theorem dlookup_derase_ne [DecidableEq κ] (d : List (κ × β)) (k k' : κ)
    (h : k' ≠ k) : dlookup (derase d k) k' = dlookup d k' := by
  induction d with
  | nil => simp [derase]
  | cons hd t ih =>
    by_cases hk : hd.1 = k
    · simp [derase, dlookup, hk, Ne.symm h]
    · simp [derase, dlookup, hk, ih]

theorem dlookup_derase_self [DecidableEq κ] (d : List (κ × β)) (k : κ)
    (h : (dkeys d).Nodup) : dlookup (derase d k) k = none := by
  induction d with
  | nil => simp [derase, dlookup]
  | cons hd t ih =>
    rw [dkeys_cons, List.nodup_cons] at h
    by_cases hk : hd.1 = k
    · simp only [derase, if_pos hk]
      exact (dlookup_eq_none_iff t k).2 (hk ▸ h.1)
    · simp [derase, dlookup, hk, ih h.2]

theorem mem_dkeys_derase [DecidableEq κ] (d : List (κ × β)) (k a : κ)
    (h : a ∈ dkeys (derase d k)) : a ∈ dkeys d := by
  induction d with
  | nil => simpa [derase] using h
  | cons hd t ih =>
    by_cases hk : hd.1 = k
    · simp only [derase, if_pos hk] at h
      rw [dkeys_cons, List.mem_cons]
      exact Or.inr h
    · simp only [derase, if_neg hk, dkeys_cons, List.mem_cons] at h ⊢
      tauto

theorem nodup_dkeys_derase [DecidableEq κ] (d : List (κ × β)) (k : κ)
    (h : (dkeys d).Nodup) : (dkeys (derase d k)).Nodup := by
  induction d with
  | nil => simp [derase, dkeys]
  | cons hd t ih =>
    rw [dkeys_cons, List.nodup_cons] at h
    by_cases hk : hd.1 = k
    · simpa only [derase, if_pos hk] using h.2
    · simp only [derase, if_neg hk, dkeys_cons, List.nodup_cons]
      exact ⟨fun hmem => h.1 (mem_dkeys_derase t k hd.1 hmem), ih h.2⟩

theorem dlookup_none_foldl_derase [DecidableEq κ] (l : List κ) (d : List (κ × β)) (k : κ)
    (h : dlookup d k = none) : dlookup (l.foldl derase d) k = none := by
  induction l generalizing d with
  | nil => simpa using h
  | cons a t ih =>
    simp only [List.foldl_cons]
    apply ih
    by_cases hk : k = a
    · subst hk
      rw [dlookup_eq_none_iff] at h ⊢
      intro hmem
      exact h (mem_dkeys_derase d k k hmem)
    · rw [dlookup_derase_ne d a k hk]
      exact h

theorem dlookup_foldl_derase_of_not_mem [DecidableEq κ] (l : List κ) (d : List (κ × β)) (k : κ)
    (h : k ∉ l) : dlookup (l.foldl derase d) k = dlookup d k := by
  induction l generalizing d with
  | nil => simp
  | cons a t ih =>
    simp at h
    simp only [List.foldl_cons]
    rw [ih (derase d a) h.2]
    exact dlookup_derase_ne d a k h.1

theorem nodup_dkeys_foldl_derase [DecidableEq κ] (l : List κ) (d : List (κ × β))
    (h : (dkeys d).Nodup) : (dkeys (l.foldl derase d)).Nodup := by
  induction l generalizing d with
  | nil => simpa using h
  | cons a t ih =>
    simp only [List.foldl_cons]
    exact ih _ (nodup_dkeys_derase d a h)

theorem dlookup_foldl_derase_of_mem [DecidableEq κ] (l : List κ) (d : List (κ × β)) (k : κ)
    (hn : (dkeys d).Nodup) (h : k ∈ l) : dlookup (l.foldl derase d) k = none := by
  induction l generalizing d with
  | nil => simp at h
  | cons a t ih =>
    simp only [List.foldl_cons]
    by_cases hk : k = a
    · subst hk
      exact dlookup_none_foldl_derase t _ k (dlookup_derase_self d k hn)
    · simp [hk] at h
      exact ih _ (nodup_dkeys_derase d a hn) h

theorem mem_dkeys_foldl_derase [DecidableEq κ] (l : List κ) (d : List (κ × β)) (a : κ)
    (h : a ∈ dkeys (l.foldl derase d)) : a ∈ dkeys d := by
  induction l generalizing d with
  | nil => simpa using h
  | cons x t ih =>
    simp only [List.foldl_cons] at h
    exact mem_dkeys_derase d x a (ih _ h)

/-! ### Lemmas about `set_track_info` and the `update_tracks` reconciliation -/

theorem dlookup_set_track_info_self (q : List (Int × TrackInfo)) (t : Int) (info : TrackInfo) :
    dlookup (MopidyQueue.set_track_info q (some t) info) t =
      some (((dlookup q t).getD { tlid := some t }).updateWith info) := by
  simp [MopidyQueue.set_track_info, dlookup_dset_self]

theorem dlookup_set_track_info_ne (q : List (Int × TrackInfo)) (t : Int) (info : TrackInfo)
    (t' : Int) (h : t' ≠ t) :
    dlookup (MopidyQueue.set_track_info q (some t) info) t' = dlookup q t' := by
  simp [MopidyQueue.set_track_info, dlookup_dset_ne _ _ _ _ h]

theorem mem_dkeys_set_track_info (q : List (Int × TrackInfo)) (t : Int) (info : TrackInfo)
    (a : Int) :
    a ∈ dkeys (MopidyQueue.set_track_info q (some t) info) ↔ a = t ∨ a ∈ dkeys q := by
  simp [MopidyQueue.set_track_info, mem_dkeys_dset]

theorem nodup_dkeys_set_track_info (q : List (Int × TrackInfo)) (t : Int) (info : TrackInfo)
    (h : (dkeys q).Nodup) : (dkeys (MopidyQueue.set_track_info q (some t) info)).Nodup := by
  simp only [MopidyQueue.set_track_info]
  exact nodup_dkeys_dset _ _ _ h

theorem applyRemote_ok (res : List TlTrack) (q : List (Int × TrackInfo)) (n : Nat)
    (hu : ∀ el ∈ res, el.track.uri.isSome) :
    ∃ q', MopidyQueue.applyRemote q res n = .ok q' := by
  induction res generalizing q n with
  | nil => exact ⟨q, rfl⟩
  | cons el rest ih =>
    rcases Option.isSome_iff_exists.1 (hu el (List.mem_cons_self _ _)) with ⟨u, hu1⟩
    simp only [MopidyQueue.applyRemote, hu1]
    exact ih _ _ (fun x hx => hu x (List.mem_cons_of_mem _ hx))

theorem applyRemote_dlookup_of_not_mem (res : List TlTrack) (q q' : List (Int × TrackInfo))
    (n : Nat) (k : Int) (hk : k ∉ res.map (fun x => x.tlid))
    (h : MopidyQueue.applyRemote q res n = .ok q') :
    dlookup q' k = dlookup q k := by
  induction res generalizing q n with
  | nil =>
    simp only [MopidyQueue.applyRemote] at h
    cases h
    rfl
  | cons el rest ih =>
    simp only [List.map_cons, List.mem_cons, not_or] at hk
    cases hu1 : el.track.uri with
    | none =>
      simp only [MopidyQueue.applyRemote, hu1] at h
      exact Except.noConfusion h
    | some u =>
      simp only [MopidyQueue.applyRemote, hu1] at h
      rw [ih _ _ hk.2 h]
      exact dlookup_set_track_info_ne _ _ _ _ hk.1

theorem applyRemote_mem_dkeys (res : List TlTrack) (q q' : List (Int × TrackInfo))
    (n : Nat) (a : Int) (h : MopidyQueue.applyRemote q res n = .ok q') :
    a ∈ dkeys q' ↔ a ∈ dkeys q ∨ a ∈ res.map (fun x => x.tlid) := by
  induction res generalizing q n with
  | nil =>
    simp only [MopidyQueue.applyRemote] at h
    cases h
    simp
  | cons el rest ih =>
    cases hu1 : el.track.uri with
    | none =>
      simp only [MopidyQueue.applyRemote, hu1] at h
      exact Except.noConfusion h
    | some u =>
      simp only [MopidyQueue.applyRemote, hu1] at h
      rw [ih _ _ h, mem_dkeys_set_track_info]
      simp only [List.map_cons, List.mem_cons]
      tauto

theorem applyRemote_nodup (res : List TlTrack) (q q' : List (Int × TrackInfo)) (n : Nat)
    (h : MopidyQueue.applyRemote q res n = .ok q') (hq : (dkeys q).Nodup) :
    (dkeys q').Nodup := by
  induction res generalizing q n with
  | nil =>
    simp only [MopidyQueue.applyRemote] at h
    cases h
    exact hq
  | cons el rest ih =>
    cases hu1 : el.track.uri with
    | none =>
      simp only [MopidyQueue.applyRemote, hu1] at h
      exact Except.noConfusion h
    | some u =>
      simp only [MopidyQueue.applyRemote, hu1] at h
      exact ih _ _ h (nodup_dkeys_set_track_info _ _ _ hq)

theorem applyRemote_dlookup_at (res : List TlTrack) (q q' : List (Int × TrackInfo)) (n : Nat)
    (hn : (res.map (fun x => x.tlid)).Nodup)
    (h : MopidyQueue.applyRemote q res n = .ok q') (i : Fin res.length) (u : String)
    (hu : (res.get i).track.uri = some u) :
    dlookup q' (res.get i).tlid =
      some (((dlookup q (res.get i).tlid).getD { tlid := some (res.get i).tlid }).updateWith
        (MopidyQueue.remoteInfo u (n + i.val))) := by
  induction res generalizing q n with
  | nil => exact absurd i.isLt (by simp)
  | cons el rest ih =>
    simp only [List.map_cons, List.nodup_cons] at hn
    cases hu1 : el.track.uri with
    | none =>
      simp only [MopidyQueue.applyRemote, hu1] at h
      exact Except.noConfusion h
    | some u0 =>
      simp only [MopidyQueue.applyRemote, hu1] at h
      rcases i with ⟨i, hi⟩
      cases i with
      | zero =>
        simp only [List.get] at hu ⊢
        rw [hu1] at hu
        cases hu
        rw [applyRemote_dlookup_of_not_mem rest _ _ _ _ hn.1 h,
            dlookup_set_track_info_self, Nat.add_zero]
      | succ j =>
        have hj : j < rest.length := Nat.lt_of_succ_lt_succ hi
        have hget : (el :: rest).get ⟨j + 1, hi⟩ = rest.get ⟨j, hj⟩ := rfl
        rw [hget] at hu ⊢
        have htj : (rest.get ⟨j, hj⟩).tlid ∈ rest.map (fun x => x.tlid) :=
          List.mem_map.2 ⟨rest.get ⟨j, hj⟩, List.get_mem _ _ _, rfl⟩
        have hne : (rest.get ⟨j, hj⟩).tlid ≠ el.tlid := fun hh => hn.1 (hh ▸ htj)
        have := ih _ _ hn.2 h ⟨j, hj⟩ hu
        rw [this, dlookup_set_track_info_ne _ _ _ _ hne]
        have harith : n + 1 + j = n + (j + 1) := by omega
        rw [harith]

/-- Full characterization of a successful `update_tracks` run: the surviving
keys are exactly the remote tlids, each refreshed by merging
`{"uri": ..., "index": ...}` into the previous entry, and every previously
known key absent from the remote snapshot is purged. -/
theorem update_tracks_spec (qs : QueueState) (res : List TlTrack)
    (hk : (dkeys qs.queue).Nodup)
    (hn : (res.map (fun x => x.tlid)).Nodup)
    (hu : ∀ el ∈ res, el.track.uri.isSome) :
    ∃ qs', MopidyQueue.update_tracks (some res) qs = .ok qs' ∧
      (∀ a ∈ dkeys qs'.queue, a ∈ res.map (fun x => x.tlid)) ∧
      (∀ (i : Fin res.length) (u : String), (res.get i).track.uri = some u →
        dlookup qs'.queue (res.get i).tlid =
          some (((dlookup qs.queue (res.get i).tlid).getD
              { tlid := some (res.get i).tlid }).updateWith
            (MopidyQueue.remoteInfo u i.val))) ∧
      (∀ a ∈ dkeys qs.queue, a ∉ res.map (fun x => x.tlid) → dlookup qs'.queue a = none) := by
  rcases applyRemote_ok res qs.queue 0 hu with ⟨q1, hq1⟩
  have hnodup1 : (dkeys q1).Nodup := applyRemote_nodup res _ _ _ hq1 hk
  refine ⟨{ qs with queue := ((dkeys qs.queue).filter
      (fun t => ¬ (res.map (fun x => x.tlid)).contains t)).foldl derase q1 }, ?_, ?_, ?_, ?_⟩
  · simp only [MopidyQueue.update_tracks, hq1]
  · intro a ha
    have ha0 : a ∈ dkeys (((dkeys qs.queue).filter
        (fun t => ¬ (res.map (fun x => x.tlid)).contains t)).foldl derase q1) := ha
    by_contra hmem
    have ha1 : a ∈ dkeys q1 := mem_dkeys_foldl_derase _ _ _ ha0
    have haq : a ∈ dkeys qs.queue := by
      rcases (applyRemote_mem_dkeys res _ _ _ a hq1).1 ha1 with h1 | h1
      · exact h1
      · exact absurd h1 hmem
    have hpurge : a ∈ (dkeys qs.queue).filter
        (fun t => ¬ (res.map (fun x => x.tlid)).contains t) := by
      rw [List.mem_filter]
      exact ⟨haq, by simpa using hmem⟩
    have hnone : dlookup ((((dkeys qs.queue).filter
        (fun t => ¬ (res.map (fun x => x.tlid)).contains t))).foldl derase q1) a = none :=
      dlookup_foldl_derase_of_mem _ _ _ hnodup1 hpurge
    rw [dlookup_eq_none_iff] at hnone
    exact hnone ha0
  · intro i u hui
    have hmem : (res.get i).tlid ∈ res.map (fun x => x.tlid) :=
      List.mem_map.2 ⟨res.get i, List.get_mem _ _ _, rfl⟩
    have hnp : (res.get i).tlid ∉ (dkeys qs.queue).filter
        (fun t => ¬ (res.map (fun x => x.tlid)).contains t) := by
      intro hin
      rw [List.mem_filter] at hin
      have h2 := hin.2
      simp only [decide_eq_true_eq] at h2
      exact h2 (by simpa using hmem)
    show dlookup (((dkeys qs.queue).filter
        (fun t => ¬ (res.map (fun x => x.tlid)).contains t)).foldl derase q1)
        (res.get i).tlid = _
    rw [dlookup_foldl_derase_of_not_mem _ _ _ hnp]
    have := applyRemote_dlookup_at res _ _ 0 hn hq1 i u hui
    simpa using this
  · intro a ha hmem
    have hpurge : a ∈ (dkeys qs.queue).filter
        (fun t => ¬ (res.map (fun x => x.tlid)).contains t) := by
      rw [List.mem_filter]
      exact ⟨ha, by simpa using hmem⟩
    exact dlookup_foldl_derase_of_mem _ _ _ hnodup1 hpurge

/-- C2: after a successful `update_tracks()` reconciliation against a remote
queue snapshot, the set of tlids in the local queue model is a subset of the
snapshot's tlids, every remotely present tlid has a local entry carrying its
refreshed order index (and uri), and every previously known tlid absent from
the snapshot has been purged. -/
theorem update_tracks_reconciles (qs : QueueState) (res : List TlTrack)
    (hk : (dkeys qs.queue).Nodup)
    (hn : (res.map (fun x => x.tlid)).Nodup)
    (hu : ∀ el ∈ res, el.track.uri.isSome) :
    ∃ qs', MopidyQueue.update_tracks (some res) qs = .ok qs' ∧
      (∀ a ∈ dkeys qs'.queue, a ∈ res.map (fun x => x.tlid)) ∧
      (∀ i : Fin res.length, ∃ e, dlookup qs'.queue (res.get i).tlid = some e ∧
        e.index = some i.val ∧ e.uri = (res.get i).track.uri) ∧
      (∀ a ∈ dkeys qs.queue, a ∉ res.map (fun x => x.tlid) → dlookup qs'.queue a = none) := by
  rcases update_tracks_spec qs res hk hn hu with ⟨qs', h1, h2, h3, h4⟩
  refine ⟨qs', h1, h2, ?_, h4⟩
  intro i
  rcases Option.isSome_iff_exists.1 (hu (res.get i) (List.get_mem _ _ _)) with ⟨u, hui⟩
  refine ⟨_, h3 i u hui, ?_, ?_⟩
  · simp [TrackInfo.updateWith, MopidyQueue.remoteInfo, orElse_some_left]
  · simp only [TrackInfo.updateWith, MopidyQueue.remoteInfo, orElse_some_left]
    exact hui.symm

/-- Witness for C2: the reconciliation theorem applied at a concrete queue
and a concrete remote snapshot. -/
theorem update_tracks_reconciles_witness :
    ((dkeys c2qs.queue).Nodup ∧ (c2res.map (fun x => x.tlid)).Nodup ∧
      (∀ el ∈ c2res, el.track.uri.isSome)) ∧
    (∃ qs', MopidyQueue.update_tracks (some c2res) c2qs = .ok qs' ∧
      (∀ a ∈ dkeys qs'.queue, a ∈ c2res.map (fun x => x.tlid)) ∧
      (∀ i : Fin c2res.length, ∃ e, dlookup qs'.queue (c2res.get i).tlid = some e ∧
        e.index = some i.val ∧ e.uri = (c2res.get i).track.uri) ∧
      (∀ a ∈ dkeys c2qs.queue, a ∉ c2res.map (fun x => x.tlid) → dlookup qs'.queue a = none)) :=
  ⟨⟨by decide, by decide, by decide⟩,
   update_tracks_reconciles c2qs c2res (by decide) (by decide) (by decide)⟩

/-- C6: a stream-title override applied through `set_stream_title` to the
current entry is not lost by a subsequent `update_tracks()` reconciliation
that still lists that entry's tlid remotely: the merged entry keeps the
overridden title and the is_stream flag. -/
theorem stream_title_override_survives (qs : QueueState) (st : String)
    (res : List TlTrack) (t : Int)
    (hk : (dkeys qs.queue).Nodup)
    (hn : (res.map (fun x => x.tlid)).Nodup)
    (hu : ∀ el ∈ res, el.track.uri.isSome)
    (ht : qs.current_track_tlid = some t)
    (hmem : t ∈ res.map (fun x => x.tlid)) :
    ∃ qs', MopidyQueue.update_tracks (some res) (MopidyQueue.set_stream_title qs st) = .ok qs' ∧
      ∃ e, dlookup qs'.queue t = some e ∧ e.title = some st ∧ e.is_stream = some true := by
  have hq2 : (MopidyQueue.set_stream_title qs st).queue =
      MopidyQueue.set_track_info qs.queue (some t)
        { title := some st, is_stream := some true } := by
    simp [MopidyQueue.set_stream_title, ht]
  have hk2 : (dkeys (MopidyQueue.set_stream_title qs st).queue).Nodup := by
    rw [hq2]
    exact nodup_dkeys_set_track_info _ _ _ hk
  rcases update_tracks_spec _ res hk2 hn hu with ⟨qs', h1, h2, h3, h4⟩
  rcases List.mem_map.1 hmem with ⟨el, hel, heltlid⟩
  rcases List.mem_iff_get.1 hel with ⟨i, hgi⟩
  rcases Option.isSome_iff_exists.1 (hu el hel) with ⟨u, hui⟩
  have h5 := h3 i u (by rw [hgi]; exact hui)
  rw [hgi, heltlid] at h5
  rw [hq2, dlookup_set_track_info_self] at h5
  refine ⟨qs', h1, _, h5, ?_, ?_⟩
  · simp [TrackInfo.updateWith, MopidyQueue.remoteInfo, orElse_some_left, orElse_none_left]
  · simp [TrackInfo.updateWith, MopidyQueue.remoteInfo, orElse_some_left, orElse_none_left]

/-- Witness for C6: the override-survival theorem applied at a concrete
stream-titled queue and a remote snapshot still listing the entry. -/
theorem stream_title_override_survives_witness :
    ((dkeys c6qs.queue).Nodup ∧ (c6res.map (fun x => x.tlid)).Nodup ∧
      (∀ el ∈ c6res, el.track.uri.isSome) ∧
      c6qs.current_track_tlid = some 7 ∧ (7 : Int) ∈ c6res.map (fun x => x.tlid)) ∧
    (∃ qs', MopidyQueue.update_tracks (some c6res)
        (MopidyQueue.set_stream_title c6qs "now playing") = .ok qs' ∧
      ∃ e, dlookup qs'.queue 7 = some e ∧ e.title = some "now playing" ∧
        e.is_stream = some true) :=
  ⟨⟨by decide, by decide, by decide, by decide, by decide⟩,
   stream_title_override_survives c6qs "now playing" c6res 7
     (by decide) (by decide) (by decide) (by decide) (by decide)⟩

/-- C1: with every Transport Channel call raising a connection error, the
liveness probe (`core.get_version`) fails first, `update()` resets the full
state and returns normally — no exception reaches the caller, and the
availability flag is false afterwards.  (The embedding models the fetches
`update()` would otherwise run, including the unguarded source-list fetch
and the `UnboundLocalError` in the current-track position fetch; the early
return keeps them unreached.) -/
theorem update_down_device_no_exception (dev : Transport) (s : SpeakerState)
    (now : Nat) (today : List Char) (h : dev.allDown) :
    ∃ s', MopidySpeaker.update dev now today s = .ok s' ∧ s'.is_available = false := by
  refine ⟨{ MopidySpeaker.clear { s with is_available := false } with
      queue := MopidyQueue.clear_current_track now s.queue }, ?_, rfl⟩
  simp only [MopidySpeaker.update, MopidySpeaker.get_software_version, h.1]
  rfl

/-- Witness for C1 at the fully down device and a fresh state. -/
theorem update_down_device_no_exception_witness :
    Transport.allDown c1dev ∧
    ∃ s', MopidySpeaker.update c1dev 0 [] c1s = .ok s' ∧ s'.is_available = false := by
  have hA : Transport.allDown c1dev :=
    ⟨rfl, rfl, rfl, rfl, rfl, rfl, rfl, rfl, rfl, rfl, rfl, rfl, rfl, rfl, rfl, rfl, rfl,
     fun _ => rfl, fun _ => rfl⟩
  exact ⟨hA, update_down_device_no_exception c1dev c1s 0 [] hA⟩

/-- C5: the repeat-mode encoding round-trips — for each tri-state value,
`set_repeat_mode` issues a (repeat, single) pair of booleans, and decoding
that pair by the rule of `__get_repeat_mode` gives back the original
value. -/
theorem repeat_mode_round_trip :
    ∀ x : RepeatMode, ∃ r g,
      MopidySpeaker.set_repeat_mode x =
        [Call.tracklistSetRepeat r, Call.tracklistSetSingle g] ∧
      MopidySpeaker.repeat_mode_of r g = x := by
  intro x
  cases x
  · exact ⟨false, false, rfl, rfl⟩
  · exact ⟨true, false, rfl, rfl⟩
  · exact ⟨true, true, rfl, rfl⟩

/-- C8: `restore_snapshot` with no stored snapshot returns immediately:
zero Transport Channel calls, unchanged state, no exception. -/
theorem restore_snapshot_no_snapshot (dev : Transport) (s : SpeakerState)
    (h : s.snapshot = none) :
    MopidySpeaker.restore_snapshot dev s = ⟨[], s, none⟩ := by
  simp [MopidySpeaker.restore_snapshot, h]

/-- Witness for C8 at a concrete device and snapshot-free state. -/
theorem restore_snapshot_no_snapshot_witness :
    c8s.snapshot = none ∧ MopidySpeaker.restore_snapshot c8dev c8s = ⟨[], c8s, none⟩ :=
  ⟨rfl, restore_snapshot_no_snapshot c8dev c8s rfl⟩

/-- `set_volume` leaves the cached level within range. -/
theorem volumeOk_set_volume (s : SpeakerState) (v : Option Int)
    (h : volumeOk s.volume_level = true) :
    volumeOk ((MopidySpeaker.set_volume s v).1).volume_level = true := by
  match v with
  | none => exact h
  | some v =>
    by_cases h1 : v ≥ 100
    · simp [MopidySpeaker.set_volume, h1, volumeOk]
    · by_cases h2 : v ≤ 0
      · simp [MopidySpeaker.set_volume, h1, h2, volumeOk]
      · simp only [MopidySpeaker.set_volume, if_neg h1, if_neg h2, volumeOk]
        simp only [Bool.and_eq_true, decide_eq_true_eq]
        omega

/-- C9: `set_volume` clamps into `[0, 100]` and issues the mixer call with
the clamped value; `set_volume(None)` is a no-op; and the cached volume
level stays `None`-or-in-range under any sequence of `set_volume`,
`volume_up`, `volume_down` calls. -/
theorem set_volume_clamps (s : SpeakerState) (v : Int) (ops : List VolOp) :
    (MopidySpeaker.set_volume s (some v) =
      ({ s with volume_level := some (min 100 (max 0 v)) },
        [Call.mixerSetVolume (min 100 (max 0 v))])) ∧
    (MopidySpeaker.set_volume s none = (s, [])) ∧
    (volumeOk s.volume_level = true →
      volumeOk ((run_vol_ops s ops).volume_level) = true) := by
  refine ⟨?_, rfl, ?_⟩
  · by_cases h1 : v ≥ 100
    · have hc : min 100 (max 0 v) = 100 := by omega
      simp [MopidySpeaker.set_volume, h1, hc]
    · by_cases h2 : v ≤ 0
      · have hc : min 100 (max 0 v) = 0 := by omega
        simp [MopidySpeaker.set_volume, h1, h2, hc]
      · have hc : min 100 (max 0 v) = v := by omega
        simp [MopidySpeaker.set_volume, h1, h2, hc]
  · intro h
    induction ops generalizing s with
    | nil => exact h
    | cons op rest ih =>
      cases op with
      | setVol v0 => exact ih _ (volumeOk_set_volume s v0 h)
      | up =>
        cases hv : s.volume_level with
        | none =>
          apply ih
          simp [run_vol_ops, MopidySpeaker.volume_up, hv] at h ⊢
          exact hv ▸ h
        | some v0 =>
          apply ih
          show volumeOk ((MopidySpeaker.volume_up s).1).volume_level = true
          simp only [MopidySpeaker.volume_up, hv]
          exact volumeOk_set_volume s _ h
      | down =>
        cases hv : s.volume_level with
        | none =>
          apply ih
          simp [run_vol_ops, MopidySpeaker.volume_down, hv] at h ⊢
          exact hv ▸ h
        | some v0 =>
          apply ih
          show volumeOk ((MopidySpeaker.volume_down s).1).volume_level = true
          simp only [MopidySpeaker.volume_down, hv]
          exact volumeOk_set_volume s _ h

/-- Witness for C9 at a concrete state and op sequence (an overshooting set
followed by steps). -/
theorem set_volume_clamps_witness :
    volumeOk c9s.volume_level = true ∧
    (MopidySpeaker.set_volume c9s (some 250) =
      ({ c9s with volume_level := some (min 100 (max 0 250)) },
        [Call.mixerSetVolume (min 100 (max 0 250))])) ∧
    volumeOk ((run_vol_ops c9s
      [.setVol (some 250), .up, .down, .setVol none, .down]).volume_level) = true :=
  ⟨by decide,
   (set_volume_clamps c9s 250 []).1,
   (set_volume_clamps c9s 250 [.setVol (some 250), .up, .down, .setVol none, .down]).2.2
     (by decide)⟩

/-- C10: `set_consume_mode` with a non-boolean returns `False`, issues no
Transport call and changes nothing; with a boolean equal to the cached mode
it issues no Transport call and changes nothing (returning `None`). -/
theorem set_consume_mode_guard (s : SpeakerState) (b : Bool) :
    (MopidySpeaker.set_consume_mode s .nonBool = (s, [], some false)) ∧
    (s.consume_mode = some b →
      MopidySpeaker.set_consume_mode s (.pybool b) = (s, [], none)) := by
  refine ⟨rfl, fun h => ?_⟩
  simp [MopidySpeaker.set_consume_mode, h]

/-- Witness for C10 at a state with a cached consume mode. -/
theorem set_consume_mode_guard_witness :
    c10s.consume_mode = some true ∧
    MopidySpeaker.set_consume_mode c10s .nonBool = (c10s, [], some false) ∧
    MopidySpeaker.set_consume_mode c10s (.pybool true) = (c10s, [], none) :=
  ⟨rfl, (set_consume_mode_guard c10s true).1, (set_consume_mode_guard c10s true).2 rfl⟩

/-- The uri-resolution step only issues library reads, never a queue
mutation. -/
theorem resolve_media_uris_calls_no_mutation (dev : Transport)
    (media_type : MopidySpeaker.MediaTy) (media_id : String) :
    ∀ c ∈ (MopidySpeaker.resolve_media_uris dev media_type media_id).1,
      c.isQueueMutation = false := by
  cases media_type <;>
    simp only [MopidySpeaker.resolve_media_uris] <;>
    (repeat' split) <;>
    simp [Call.isQueueMutation]

/-- C3 counterexample: an empty resolved URI list under the default Replace
enqueue mode does not raise `MissingMediaInformation` and still issues the
stop, clear and play transport calls (the claim asserts it raises and
performs no mutation). -/
theorem play_media_empty_replace_counterexample :
    (MopidySpeaker.play_media c3dev c3s .directory "local:directory:empty" .replace).exc
        = none ∧
    Call.playbackStop ∈
      (MopidySpeaker.play_media c3dev c3s .directory "local:directory:empty" .replace).calls ∧
    Call.tracklistClear ∈
      (MopidySpeaker.play_media c3dev c3s .directory "local:directory:empty" .replace).calls ∧
    Call.playbackPlay none ∈
      (MopidySpeaker.play_media c3dev c3s .directory "local:directory:empty" .replace).calls := by
  refine ⟨rfl, ?_, ?_, ?_⟩ <;> decide

/-- C3 as amended: an enqueue mode outside Add/Next/Play/Replace makes
`play_media` fail with `MissingMediaInformation` after only the uri
resolution, mutating nothing; an empty resolved URI list with a known mode
does not raise — no queue-add is issued, but the mode's other transport
calls (stop/clear/play under Replace) still are. -/
theorem play_media_missing_media (dev : Transport) (s : SpeakerState)
    (media_type : MopidySpeaker.MediaTy) (media_id : String) (uris : List String) :
    ((MopidySpeaker.resolve_media_uris dev media_type media_id).2 = .ok uris →
      (MopidySpeaker.play_media dev s media_type media_id .unknown).exc =
          some .missingMediaInformation ∧
      (MopidySpeaker.play_media dev s media_type media_id .unknown).state = s ∧
      (∀ c ∈ (MopidySpeaker.play_media dev s media_type media_id .unknown).calls,
        c.isQueueMutation = false)) ∧
    (dev.browse media_id = some [] → dev.get_tl_tracks = some [] →
      (MopidySpeaker.play_media dev s .directory media_id .replace).exc = none ∧
      (MopidySpeaker.play_media dev s .directory media_id .replace).calls =
        [.libraryBrowse media_id, .playbackStop, .tracklistClear,
         .playbackPlay none, .getTlTracks]) := by
  constructor
  · intro h
    have hcalls : (MopidySpeaker.play_media dev s media_type media_id .unknown) =
        ⟨(MopidySpeaker.resolve_media_uris dev media_type media_id).1 ++ [], s,
          some .missingMediaInformation⟩ := by
      simp only [MopidySpeaker.play_media, h, MopidySpeaker.play_media_branch]
    rw [hcalls]
    refine ⟨rfl, rfl, ?_⟩
    intro c hc
    rw [List.append_nil] at hc
    exact resolve_media_uris_calls_no_mutation dev media_type media_id c hc
  · intro hb hg
    simp [MopidySpeaker.play_media, MopidySpeaker.resolve_media_uris, hb, hg,
      MopidySpeaker.play_media_branch, MopidySpeaker.queue_tracks,
      MopidySpeaker.media_play, MopidySpeaker.update_queued_tracks,
      MopidyQueue.update_tracks, MopidyQueue.applyRemote]

/-- Witness for the amended C3 at a concrete device, directory id and
state. -/
theorem play_media_missing_media_witness :
    ((MopidySpeaker.resolve_media_uris c3dev .directory "local:directory:empty").2
        = .ok []) ∧
    ((MopidySpeaker.play_media c3dev c3s .directory "local:directory:empty" .unknown).exc =
        some .missingMediaInformation ∧
      (MopidySpeaker.play_media c3dev c3s .directory "local:directory:empty" .unknown).state
        = c3s ∧
      (∀ c ∈ (MopidySpeaker.play_media c3dev c3s .directory "local:directory:empty"
          .unknown).calls, c.isQueueMutation = false)) ∧
    ((MopidySpeaker.play_media c3dev c3s .directory "local:directory:empty" .replace).exc
        = none ∧
      (MopidySpeaker.play_media c3dev c3s .directory "local:directory:empty" .replace).calls =
        [.libraryBrowse "local:directory:empty", .playbackStop, .tracklistClear,
         .playbackPlay none, .getTlTracks]) :=
  ⟨rfl,
   (play_media_missing_media c3dev c3s .directory "local:directory:empty" []).1 rfl,
   (play_media_missing_media c3dev c3s .directory "local:directory:empty" []).2 rfl rfl⟩

/-! ### Lemmas about the urllib.parse model, toward C7 -/

theorem splitOnFirst_not_mem (sep : Char) (l : List Char) (h : sep ∉ l) :
    splitOnFirst sep l = (l, none) := by
  induction l with
  | nil => rfl
  | cons c t ih =>
    simp only [List.mem_cons, not_or] at h
    simp [splitOnFirst, Ne.symm h.1, ih h.2]

theorem splitOnFirst_append (sep : Char) (a rest : List Char) (h : sep ∉ a) :
    splitOnFirst sep (a ++ sep :: rest) = (a, some rest) := by
  induction a with
  | nil => simp [splitOnFirst]
  | cons c t ih =>
    simp only [List.mem_cons, not_or] at h
    simp [splitOnFirst, Ne.symm h.1, ih h.2]

theorem splitOnFirst_append_left (sep : Char) (a u : List Char) (h : sep ∉ a) :
    splitOnFirst sep (a ++ u) = (a ++ (splitOnFirst sep u).1, (splitOnFirst sep u).2) := by
  induction a with
  | nil => simp
  | cons c t ih =>
    simp only [List.mem_cons, not_or] at h
    simp [splitOnFirst, Ne.symm h.1, ih h.2]

theorem splitOnFirst_eq_some (sep : Char) (l a m : List Char)
    (h : splitOnFirst sep l = (a, some m)) : l = a ++ sep :: m := by
  induction l generalizing a with
  | nil => simp [splitOnFirst] at h
  | cons c t ih =>
    by_cases hc : c = sep
    · subst hc
      simp only [splitOnFirst, eq_self_iff_true, if_true, Prod.mk.injEq,
        Option.some.injEq] at h
      rw [← h.1, ← h.2]
      rfl
    · simp only [splitOnFirst, if_neg hc, Prod.mk.injEq] at h
      obtain ⟨h1, h2⟩ := h
      have hsp : splitOnFirst sep t = ((splitOnFirst sep t).1, some m) := by
        rw [← h2]
      have ht := ih (splitOnFirst sep t).1 hsp
      rw [← h1, List.cons_append, ← ht]

theorem not_mem_splitOnFirst_fst (sep : Char) (l : List Char) :
    sep ∉ (splitOnFirst sep l).1 := by
  induction l with
  | nil => simp [splitOnFirst]
  | cons c t ih =>
    by_cases hc : c = sep
    · simp [splitOnFirst, hc]
    · simp [splitOnFirst, hc, ih]
      exact fun hh => hc hh.symm

theorem mem_splitOnFirst_fst_sub (sep c : Char) (l : List Char)
    (h : c ∈ (splitOnFirst sep l).1) : c ∈ l := by
  induction l with
  | nil => simpa [splitOnFirst] using h
  | cons x t ih =>
    by_cases hx : x = sep
    · simp [splitOnFirst, hx] at h
    · simp [splitOnFirst, hx] at h
      rcases h with h | h
      · exact h ▸ List.mem_cons_self _ _
      · exact List.mem_cons_of_mem _ (ih h)

theorem splitOnFirst_snd_sub (sep c : Char) (l m : List Char)
    (h : (splitOnFirst sep l).2 = some m) (hc : c ∈ m) : c ∈ l := by
  induction l with
  | nil => simp [splitOnFirst] at h
  | cons x t ih =>
    by_cases hx : x = sep
    · simp [splitOnFirst, hx] at h
      exact List.mem_cons_of_mem _ (h ▸ hc)
    · simp [splitOnFirst, hx] at h
      exact List.mem_cons_of_mem _ (ih h)

/-- Prepending text free of `?` and `#` does not change the raw query. -/
theorem extractQuery_append (p u : List Char) (h1 : '?' ∉ p) (h2 : '#' ∉ p) :
    extractQuery (p ++ u) = extractQuery u := by
  unfold extractQuery
  rw [splitOnFirst_append_left '#' p u h2,
      splitOnFirst_append_left '?' p (splitOnFirst '#' u).1 h1]

theorem takeWhile_append_all (p : Char → Bool) (a b : List Char)
    (h : ∀ c ∈ a, p c = true) : (a ++ b).takeWhile p = a ++ b.takeWhile p := by
  induction a with
  | nil => simp
  | cons c t ih =>
    simp only [List.cons_append, List.takeWhile_cons, h c (List.mem_cons_self _ _),
      if_true]
    rw [ih (fun x hx => h x (List.mem_cons_of_mem _ hx))]

theorem dropWhile_append_all (p : Char → Bool) (a b : List Char)
    (h : ∀ c ∈ a, p c = true) : (a ++ b).dropWhile p = b.dropWhile p := by
  induction a with
  | nil => simp
  | cons c t ih =>
    simp only [List.cons_append, List.dropWhile_cons, h c (List.mem_cons_self _ _),
      if_true]
    exact ih (fun x hx => h x (List.mem_cons_of_mem _ hx))

theorem splitScheme_none (s before : List Char)
    (h : splitOnFirst ':' s = (before, none)) : splitScheme s = ([], s) := by
  unfold splitScheme
  rw [h]

theorem splitScheme_nil_before (s after : List Char)
    (h : splitOnFirst ':' s = ([], some after)) : splitScheme s = ([], s) := by
  unfold splitScheme
  rw [h]

theorem splitScheme_accepts (s after : List Char) (c0 : Char) (bt : List Char)
    (h : splitOnFirst ':' s = (c0 :: bt, some after))
    (hok : c0.isAlpha = true ∧ (c0 :: bt).all schemeChar = true) :
    splitScheme s = ((c0 :: bt).map Char.toLower, after) := by
  unfold splitScheme
  rw [h]
  show (if c0.isAlpha = true ∧ (c0 :: bt).all schemeChar = true
      then (List.map Char.toLower (c0 :: bt), after) else ([], s)) = _
  rw [if_pos hok]

theorem splitScheme_rejects (s after : List Char) (c0 : Char) (bt : List Char)
    (h : splitOnFirst ':' s = (c0 :: bt, some after))
    (hok : ¬ (c0.isAlpha = true ∧ (c0 :: bt).all schemeChar = true)) :
    splitScheme s = ([], s) := by
  unfold splitScheme
  rw [h]
  show (if c0.isAlpha = true ∧ (c0 :: bt).all schemeChar = true
      then (List.map Char.toLower (c0 :: bt), after) else ([], s)) = _
  rw [if_neg hok]

/-- A character of a scheme accepted by `splitScheme` is never one of the
URL delimiters. -/
theorem toLower_schemeChar_ne (c : Char) (h : schemeChar c = true) :
    c.toLower ≠ '?' ∧ c.toLower ≠ '#' ∧ c.toLower ≠ '&' := by
  unfold Char.toLower
  simp only []
  by_cases hcond : c.toNat ≥ 65 ∧ c.toNat ≤ 90
  · rw [if_pos hcond]
    obtain ⟨h1, h2⟩ := hcond
    generalize c.toNat = n at h1 h2
    interval_cases n <;> exact ⟨by decide, by decide, by decide⟩
  · rw [if_neg hcond]
    simp only [schemeChar, Bool.or_eq_true, decide_eq_true_eq] at h
    rcases h with ((h | h) | h) | h
    · simp only [Char.isAlphanum, Char.isAlpha, Char.isDigit, Char.isUpper,
        Char.isLower, Bool.or_eq_true, Bool.and_eq_true, decide_eq_true_eq] at h
      refine ⟨fun hc => ?_, fun hc => ?_, fun hc => ?_⟩ <;>
        (subst hc; revert h; decide)
    · subst h; exact ⟨by decide, by decide, by decide⟩
    · subst h; exact ⟨by decide, by decide, by decide⟩
    · subst h; exact ⟨by decide, by decide, by decide⟩

/-- The scheme produced by `splitScheme` carries no URL delimiter. -/
theorem splitScheme_fst_no_special (s : List Char) (c : Char)
    (hc : c ∈ (splitScheme s).1) : c ≠ '?' ∧ c ≠ '#' ∧ c ≠ '&' := by
  rcases hsp : splitOnFirst ':' s with ⟨before, after?⟩
  cases after? with
  | none =>
    rw [splitScheme_none s before hsp] at hc
    simp at hc
  | some after =>
    cases before with
    | nil =>
      rw [splitScheme_nil_before s after hsp] at hc
      simp at hc
    | cons c0 bt =>
      by_cases hok : c0.isAlpha = true ∧ (c0 :: bt).all schemeChar = true
      · rw [splitScheme_accepts s after c0 bt hsp hok] at hc
        rcases List.mem_map.1 hc with ⟨c1, hc1, hc1l⟩
        have hsc : schemeChar c1 = true := by
          have hall := hok.2
          rw [List.all_eq_true] at hall
          exact hall c1 hc1
        rw [← hc1l]
        exact toLower_schemeChar_ne c1 hsc
      · rw [splitScheme_rejects s after c0 bt hsp hok] at hc
        simp at hc

/-- The query component `urlsplit` computes is the raw query of the URL
string. -/
theorem urlsplit_query_eq_extract (s : List Char) :
    (urlsplit s).query = extractQuery s := by
  rcases hsp : splitScheme s with ⟨scheme, rest1⟩
  have hrest1 : extractQuery rest1 = extractQuery s := by
    rcases hs2 : splitOnFirst ':' s with ⟨before, after?⟩
    cases after? with
    | none =>
      have heq := (splitScheme_none s before hs2).symm.trans hsp
      injection heq with h1 h2
      rw [← h2]
    | some after =>
      cases before with
      | nil =>
        have heq := (splitScheme_nil_before s after hs2).symm.trans hsp
        injection heq with h1 h2
        rw [← h2]
      | cons c0 bt =>
        by_cases hok : c0.isAlpha = true ∧ (c0 :: bt).all schemeChar = true
        · have heq := (splitScheme_accepts s after c0 bt hs2 hok).symm.trans hsp
          injection heq with h1 h2
          rw [← h2]
          have hs3 : s = (c0 :: bt) ++ ':' :: after := splitOnFirst_eq_some ':' s _ _ hs2
          rw [hs3]
          have hnq : '?' ∉ (c0 :: bt) ++ [':'] := by
            intro hmem
            rcases List.mem_append.1 hmem with hmem | hmem
            · have hall := hok.2
              rw [List.all_eq_true] at hall
              have := hall _ hmem
              simp [schemeChar] at this
            · simp at hmem
          have hnh : '#' ∉ (c0 :: bt) ++ [':'] := by
            intro hmem
            rcases List.mem_append.1 hmem with hmem | hmem
            · have hall := hok.2
              rw [List.all_eq_true] at hall
              have := hall _ hmem
              simp [schemeChar] at this
            · simp at hmem
          have hEA := extractQuery_append ((c0 :: bt) ++ [':']) after hnq hnh
          simpa using hEA.symm
        · have heq := (splitScheme_rejects s after c0 bt hs2 hok).symm.trans hsp
          injection heq with h1 h2
          rw [← h2]
  have hbody : (urlsplit s).query = ((splitOnFirst '?' (splitOnFirst '#'
      (if rest1.take 2 = ['/', '/'] then splitNetloc (rest1.drop 2)
       else ([], rest1)).2).1).2).getD [] := by
    unfold urlsplit
    rw [hsp]
  rw [hbody]
  by_cases hn : rest1.take 2 = ['/', '/']
  · rw [if_pos hn]
    have hr : rest1 = '/' :: '/' :: rest1.drop 2 := by
      rcases rest1 with _ | ⟨a, _ | ⟨b, t⟩⟩ <;> simp_all [List.take]
    show extractQuery ((rest1.drop 2).dropWhile (fun c => ¬ netlocStop c)) = _
    rw [← hrest1]
    have hsplit : rest1 = ('/' :: '/' :: (rest1.drop 2).takeWhile (fun c => ¬ netlocStop c)) ++
        (rest1.drop 2).dropWhile (fun c => ¬ netlocStop c) := by
      conv_lhs => rw [hr]
      simp [List.takeWhile_append_dropWhile]
    conv_rhs => rw [hsplit]
    have hq : '?' ∉ '/' :: '/' :: (rest1.drop 2).takeWhile (fun c => ¬ netlocStop c) := by
      simp only [List.mem_cons, not_or]
      refine ⟨by decide, by decide, fun hmem => ?_⟩
      have := List.mem_takeWhile_imp hmem
      simp [netlocStop] at this
    have hh : '#' ∉ '/' :: '/' :: (rest1.drop 2).takeWhile (fun c => ¬ netlocStop c) := by
      simp only [List.mem_cons, not_or]
      refine ⟨by decide, by decide, fun hmem => ?_⟩
      have := List.mem_takeWhile_imp hmem
      simp [netlocStop] at this
    rw [extractQuery_append _ _ hq hh]
  · rw [if_neg hn]
    exact hrest1

theorem char_toNat_lt (c : Char) : c.toNat < 1114112 := by
  have h := c.valid
  have he : c.toNat = c.val.toNat := rfl
  unfold UInt32.isValidChar Nat.isValidChar at h
  rcases h with h | h <;> omega

theorem utf8Bytes_lt (c : Char) : ∀ b ∈ utf8Bytes c, b < 256 := by
  have hv := char_toNat_lt c
  unfold utf8Bytes
  simp only []
  intro b hb
  by_cases h1 : c.toNat < 128
  · rw [if_pos h1] at hb
    simp at hb
    omega
  · rw [if_neg h1] at hb
    by_cases h2 : c.toNat < 2048
    · rw [if_pos h2] at hb
      simp at hb
      rcases hb with hb | hb <;> omega
    · rw [if_neg h2] at hb
      by_cases h3 : c.toNat < 65536
      · rw [if_pos h3] at hb
        simp at hb
        rcases hb with hb | hb | hb <;> omega
      · rw [if_neg h3] at hb
        simp at hb
        rcases hb with hb | hb | hb | hb <;> omega

theorem quoteSafe_hexUpper (n : Nat) (h : n < 16) : quoteSafe (hexUpper n) = true := by
  interval_cases n <;> decide

theorem mem_quote_plus (l : List Char) (c' : Char) (h : c' ∈ quote_plus l) :
    c' = '+' ∨ c' = '%' ∨ quoteSafe c' = true := by
  unfold quote_plus at h
  rw [List.mem_flatten] at h
  rcases h with ⟨chunk, hchunk, hc⟩
  rcases List.mem_map.1 hchunk with ⟨c, hcl, hcc⟩
  by_cases hs : c = ' '
  · rw [← hcc, hs] at hc
    simp at hc
    exact Or.inl hc
  · by_cases hsafe : quoteSafe c = true
    · rw [← hcc] at hc
      simp [hs, hsafe] at hc
      subst hc
      exact Or.inr (Or.inr hsafe)
    · rw [← hcc] at hc
      simp [hs, hsafe] at hc
      rcases hc with ⟨b, hbl, hcp⟩
      unfold pctEncodeByte at hcp
      have hblt := utf8Bytes_lt c b hbl
      simp at hcp
      rcases hcp with hcp | hcp | hcp
      · exact Or.inr (Or.inl hcp)
      · exact Or.inr (Or.inr (hcp ▸ quoteSafe_hexUpper _ (by omega)))
      · exact Or.inr (Or.inr (hcp ▸ quoteSafe_hexUpper _ (by omega)))

/-- The characters `urlencode` may produce never include the URL
delimiters `#`, `?` nor a raw `&`/`=` inside an encoded chunk. -/
theorem quote_plus_no_special (l : List Char) (c : Char) (hc : c ∈ quote_plus l) :
    c ≠ '&' ∧ c ≠ '#' ∧ c ≠ '?' ∧ c ≠ '=' := by
  rcases mem_quote_plus l c hc with h | h | h
  · subst h
    exact ⟨by decide, by decide, by decide, by decide⟩
  · subst h
    exact ⟨by decide, by decide, by decide, by decide⟩
  · refine ⟨fun hx => ?_, fun hx => ?_, fun hx => ?_, fun hx => ?_⟩ <;>
      (subst hx; revert h; decide)

theorem quote_plus_digits (l : List Char) (h : ∀ c ∈ l, c.isDigit = true) :
    quote_plus l = l := by
  induction l with
  | nil => rfl
  | cons c t ih =>
    have hd := h c (List.mem_cons_self _ _)
    have hns : ¬ c = ' ' := by
      intro hx
      subst hx
      simp at hd
    have hsafe : quoteSafe c = true := by
      simp [quoteSafe, Char.isAlphanum, hd]
    show (List.map _ (c :: t)).flatten = c :: t
    rw [List.map_cons, List.flatten_cons]
    simp only [hns, if_false, hsafe, if_true, if_neg hns, if_pos hsafe]
    have := ih (fun x hx => h x (List.mem_cons_of_mem _ hx))
    unfold quote_plus at this
    rw [this]
    rfl

theorem pctTokens_cons_ne (c : Char) (l : List Char) (h : c ≠ '%') :
    pctTokens (c :: l) = Sum.inr c :: pctTokens l := by
  rcases l with _ | ⟨a, _ | ⟨b, t⟩⟩ <;> simp [pctTokens, h]

theorem pctTokens_no_pct (l : List Char) (h : '%' ∉ l) :
    pctTokens l = l.map Sum.inr := by
  induction l with
  | nil => rfl
  | cons c t ih =>
    simp only [List.mem_cons, not_or] at h
    rw [pctTokens_cons_ne c t (Ne.symm h.1), ih h.2]
    rfl

theorem decodeTokens_map_inr (l : List Char) :
    decodeTokens [] (l.map Sum.inr) = l := by
  induction l with
  | nil => rfl
  | cons c t ih =>
    show decodeTokens [] (Sum.inr c :: t.map Sum.inr) = c :: t
    unfold decodeTokens
    rw [ih]
    rfl

theorem unquote_plus_no_special (l : List Char) (h1 : '+' ∉ l) (h2 : '%' ∉ l) :
    unquote_plus l = l := by
  unfold unquote_plus pyUnquote
  have hmap : l.map (fun c => if c = '+' then ' ' else c) = l := by
    induction l with
    | nil => rfl
    | cons c t ih =>
      simp only [List.mem_cons, not_or] at h1 h2
      rw [List.map_cons, if_neg (Ne.symm h1.1), ih h1.2 h2.2]
  rw [hmap, pctTokens_no_pct l h2, decodeTokens_map_inr]

theorem unquote_plus_digits (l : List Char) (h : ∀ c ∈ l, c.isDigit = true) :
    unquote_plus l = l := by
  refine unquote_plus_no_special l (fun hx => ?_) (fun hx => ?_)
  · have := h _ hx
    simp at this
  · have := h _ hx
    simp at this

theorem splitOnChar_cons (sep c : Char) (rest : List Char) :
    splitOnChar sep (c :: rest) =
      match splitOnChar sep rest with
      | [] => [[]]
      | h :: t => if c = sep then [] :: h :: t else (c :: h) :: t := rfl

theorem splitOnChar_ne_nil (sep : Char) (l : List Char) : splitOnChar sep l ≠ [] := by
  cases l with
  | nil => simp [splitOnChar]
  | cons c t =>
    rw [splitOnChar_cons]
    rcases splitOnChar sep t with _ | ⟨h, t0⟩
    · simp
    · by_cases hc : c = sep <;> simp [hc]

theorem splitOnChar_nosep (sep : Char) (l : List Char) (h : ∀ c ∈ l, c ≠ sep) :
    splitOnChar sep l = [l] := by
  induction l with
  | nil => rfl
  | cons c t ih =>
    rw [splitOnChar_cons, ih (fun x hx => h x (List.mem_cons_of_mem _ hx))]
    simp [h c (List.mem_cons_self _ _)]

theorem splitOnChar_append (sep : Char) (a rest : List Char) (h : ∀ c ∈ a, c ≠ sep) :
    splitOnChar sep (a ++ sep :: rest) = a :: splitOnChar sep rest := by
  induction a with
  | nil =>
    rw [List.nil_append, splitOnChar_cons]
    rcases hr : splitOnChar sep rest with _ | ⟨h0, t0⟩
    · exact absurd hr (splitOnChar_ne_nil sep rest)
    · simp
  | cons c t ih =>
    rw [List.cons_append, splitOnChar_cons, ih (fun x hx => h x (List.mem_cons_of_mem _ hx))]
    simp [h c (List.mem_cons_self _ _)]

theorem intercalate_amp_singleton (a : List Char) :
    List.intercalate ['&'] [a] = a := by
  simp [List.intercalate]

theorem intercalate_amp_cons₂ (a b : List Char) (t : List (List Char)) :
    List.intercalate ['&'] (a :: b :: t) = a ++ '&' :: List.intercalate ['&'] (b :: t) := by
  simp [List.intercalate, List.intersperse]

/-- One encoded `k=v` chunk. -/
theorem mem_enc_chunk (k v : List Char) (c : Char)
    (hc : c ∈ quote_plus k ++ '=' :: quote_plus v) : c ≠ '&' ∧ c ≠ '#' := by
  rcases List.mem_append.1 hc with h | h
  · exact ⟨(quote_plus_no_special k c h).1, (quote_plus_no_special k c h).2.1⟩
  · rcases List.mem_cons.1 h with h | h
    · subst h
      exact ⟨by decide, by decide⟩
    · exact ⟨(quote_plus_no_special v c h).1, (quote_plus_no_special v c h).2.1⟩

theorem mem_urlencode_ne (d : List (List Char × List Char)) (c : Char)
    (hc : c ∈ urlencode d) : c ≠ '#' := by
  induction d with
  | nil => simp [urlencode, List.intercalate] at hc
  | cons kv t ih =>
    cases t with
    | nil =>
      unfold urlencode at hc
      rw [List.map_cons, List.map_nil, intercalate_amp_singleton] at hc
      exact (mem_enc_chunk kv.1 kv.2 c hc).2
    | cons kv2 t2 =>
      unfold urlencode at hc ih
      rw [List.map_cons, List.map_cons, intercalate_amp_cons₂] at hc
      rcases List.mem_append.1 hc with h | h
      · exact (mem_enc_chunk kv.1 kv.2 c h).2
      · rcases List.mem_cons.1 h with h | h
        · subst h
          decide
        · exact ih (by rw [List.map_cons]; exact h)

/-- `urlencode` of a dict ending in the mopt pair: a `d`-independent prefix
followed by the quoted day. -/
theorem urlencode_last_decomp (q : List (List Char × List Char)) :
    ∃ E, E ≠ [] ∧ ∀ dv : List Char,
      urlencode (q ++ [(moptKey, dv)]) = E ++ quote_plus dv := by
  induction q with
  | nil =>
    refine ⟨quote_plus moptKey ++ ['='], by simp, fun dv => ?_⟩
    unfold urlencode
    rw [List.nil_append, List.map_cons, List.map_nil, intercalate_amp_singleton]
    simp
  | cons kv t ih =>
    rcases ih with ⟨E, hE, hEq⟩
    refine ⟨(quote_plus kv.1 ++ '=' :: quote_plus kv.2) ++ '&' :: E, by simp, fun dv => ?_⟩
    unfold urlencode
    rw [List.cons_append, List.map_cons]
    have hne : (t ++ [(moptKey, dv)]).map
        (fun kv => quote_plus kv.1 ++ '=' :: quote_plus kv.2) ≠ [] := by
      simp
    rcases hx : (t ++ [(moptKey, dv)]).map
        (fun kv => quote_plus kv.1 ++ '=' :: quote_plus kv.2) with _ | ⟨x, xs⟩
    · exact absurd hx hne
    · rw [hx, intercalate_amp_cons₂]
      have heq2 := hEq dv
      unfold urlencode at heq2
      rw [hx] at heq2
      rw [heq2]
      simp

/-- The mopt pair is recovered by `parse_qsl` from the encoded query. -/
theorem mem_parse_qsl_urlencode (q : List (List Char × List Char)) (dv : List Char)
    (hd1 : dv ≠ []) (hd2 : ∀ c ∈ dv, c.isDigit = true) :
    (moptKey, dv) ∈ parse_qsl (urlencode (q ++ [(moptKey, dv)])) := by
  have hqd : quote_plus dv = dv := quote_plus_digits dv hd2
  have hbase : parse_qsl (quote_plus moptKey ++ '=' :: quote_plus dv) = [(moptKey, dv)] := by
    have hqm : quote_plus moptKey = moptKey := by decide
    rw [hqm, hqd]
    have hnoamp : ∀ c ∈ moptKey ++ '=' :: dv, c ≠ '&' := by
      intro c hc
      rcases List.mem_append.1 hc with h | h
      · simp only [moptKey, List.mem_cons, List.not_mem_nil, or_false] at h
        rcases h with h | h | h | h <;> (subst h; decide)
      · rcases List.mem_cons.1 h with h | h
        · subst h
          decide
        · have := hd2 _ h
          intro hx
          subst hx
          simp at this
    unfold parse_qsl
    rw [splitOnChar_nosep '&' _ hnoamp]
    have hmem : '=' ∉ moptKey := by decide
    rw [List.filterMap]
    simp only [List.filterMap_cons, List.filterMap_nil]
    have hnn : ¬ (moptKey ++ '=' :: dv) = [] := by simp
    rw [if_neg hnn, splitOnFirst_append '=' moptKey dv hmem]
    simp only [if_neg hd1]
    rw [unquote_plus_digits dv hd2]
    have hum : unquote_plus moptKey = moptKey := by decide
    rw [hum]
  induction q with
  | nil =>
    unfold urlencode
    rw [List.nil_append, List.map_cons, List.map_nil, intercalate_amp_singleton, hbase]
    exact List.mem_singleton.2 rfl
  | cons kv t ih =>
    unfold urlencode
    rw [List.cons_append, List.map_cons]
    have hne : (t ++ [(moptKey, dv)]).map
        (fun kv => quote_plus kv.1 ++ '=' :: quote_plus kv.2) ≠ [] := by simp
    rcases hx : (t ++ [(moptKey, dv)]).map
        (fun kv => quote_plus kv.1 ++ '=' :: quote_plus kv.2) with _ | ⟨x, xs⟩
    · exact absurd hx hne
    · rw [hx, intercalate_amp_cons₂]
      have hsplit : splitOnChar '&'
          ((quote_plus kv.1 ++ '=' :: quote_plus kv.2) ++
            '&' :: List.intercalate ['&'] (x :: xs)) =
          (quote_plus kv.1 ++ '=' :: quote_plus kv.2) ::
            splitOnChar '&' (List.intercalate ['&'] (x :: xs)) :=
        splitOnChar_append '&' _ _ (fun c hc => (mem_enc_chunk kv.1 kv.2 c hc).1)
      unfold parse_qsl
      rw [hsplit, List.filterMap_cons]
      have hrec := ih
      unfold urlencode at hrec
      rw [hx] at hrec
      unfold parse_qsl at hrec
      rcases hf : (if (quote_plus kv.1 ++ '=' :: quote_plus kv.2) = [] then none
          else match splitOnFirst '=' (quote_plus kv.1 ++ '=' :: quote_plus kv.2) with
          | (_, none) => none
          | (name, some value) =>
            if value = [] then none
            else some (unquote_plus name, unquote_plus value)) with _ | p
      · simpa using hrec
      · exact List.mem_cons_of_mem _ hrec

/-- `urlunsplit` on a record with a nonempty query splits into a
query-independent head, the raw query, and the fragment tail. -/
theorem urlunsplit_set_query_decomp (X : SplitResult) (Q : List Char) (hQ : Q ≠ []) :
    urlunsplit { X with query := Q } =
      urlunsplit { X with query := [], fragment := [] } ++ '?' :: Q ++
        (if X.fragment = [] then [] else '#' :: X.fragment) := by
  by_cases h3 : X.fragment = [] <;>
    simp [urlunsplit, hQ, h3, List.append_assoc]

/-- Every character of the query-free rebuild comes from the record's
scheme, netloc or path, or is one of `:` `/`. -/
theorem mem_urlunsplit_noquery (X : SplitResult) (c : Char)
    (hc : c ∈ urlunsplit { X with query := [], fragment := [] }) :
    c = ':' ∨ c = '/' ∨ c ∈ X.scheme ∨ c ∈ X.netloc ∨ c ∈ X.path := by
  by_cases hn : X.netloc = [] <;>
  by_cases hpe : X.path = [] <;>
  by_cases ht : X.path.take 2 = ['/', '/'] <;>
  by_cases hh : X.path.head? = some '/' <;>
  by_cases h3 : X.scheme = [] <;>
    simp [urlunsplit, hn, hpe, ht, hh, h3] at hc <;>
    tauto

/-- Extract the query back out of a rebuilt URL. -/
theorem extractQuery_set_query (X : SplitResult) (Q : List Char)
    (hs : ∀ c ∈ X.scheme, c ≠ '?' ∧ c ≠ '#')
    (hn : ∀ c ∈ X.netloc, c ≠ '?' ∧ c ≠ '#')
    (hpa : ∀ c ∈ X.path, c ≠ '?' ∧ c ≠ '#')
    (hq : '#' ∉ Q) (hqn : Q ≠ []) :
    extractQuery (urlunsplit { X with query := Q }) = Q := by
  rw [urlunsplit_set_query_decomp X Q hqn]
  have hP : ∀ c ∈ urlunsplit { X with query := [], fragment := [] }, c ≠ '?' ∧ c ≠ '#' := by
    intro c hc
    rcases mem_urlunsplit_noquery X c hc with h | h | h | h | h
    · subst h
      exact ⟨by decide, by decide⟩
    · subst h
      exact ⟨by decide, by decide⟩
    · exact hs c h
    · exact hn c h
    · exact hpa c h
  by_cases h3 : X.fragment = []
  · rw [if_pos h3]
    unfold extractQuery
    have hnh : '#' ∉ urlunsplit { X with query := [], fragment := [] } ++ '?' :: (Q ++ []) := by
      intro hmem
      rcases List.mem_append.1 hmem with h | h
      · exact (hP _ h).2 rfl
      · rcases List.mem_cons.1 h with h | h
        · exact absurd h.symm (by decide)
        · rw [List.append_nil] at h
          exact hq h
    rw [show urlunsplit { X with query := [], fragment := [] } ++ '?' :: Q ++ [] =
        urlunsplit { X with query := [], fragment := [] } ++ '?' :: (Q ++ []) by simp]
    rw [splitOnFirst_not_mem '#' _ hnh]
    have hnq : '?' ∉ urlunsplit { X with query := [], fragment := [] } :=
      fun hmem => (hP _ hmem).1 rfl
    rw [splitOnFirst_append '?' _ _ hnq]
    simp
  · rw [if_neg h3]
    unfold extractQuery
    have hshape : urlunsplit { X with query := [], fragment := [] } ++ '?' :: Q ++
        '#' :: X.fragment =
        (urlunsplit { X with query := [], fragment := [] } ++ '?' :: Q) ++
          '#' :: X.fragment := by
      simp
    rw [hshape]
    have hnh : '#' ∉ urlunsplit { X with query := [], fragment := [] } ++ '?' :: Q := by
      intro hmem
      rcases List.mem_append.1 hmem with h | h
      · exact (hP _ h).2 rfl
      · rcases List.mem_cons.1 h with h | h
        · exact absurd h.symm (by decide)
        · exact hq h
    rw [splitOnFirst_append '#' _ _ hnh]
    have hnq : '?' ∉ urlunsplit { X with query := [], fragment := [] } :=
      fun hmem => (hP _ hmem).1 rfl
    rw [splitOnFirst_append '?' _ _ hnq]
    simp

/-- The components `urlsplit` returns carry no stray `?`/`#`. -/
theorem urlsplit_components (s : List Char) :
    (∀ c ∈ (urlsplit s).scheme, c ≠ '?' ∧ c ≠ '#') ∧
    (∀ c ∈ (urlsplit s).netloc, c ≠ '?' ∧ c ≠ '#') ∧
    (∀ c ∈ (urlsplit s).path, c ≠ '?' ∧ c ≠ '#') ∧
    '#' ∉ (urlsplit s).query := by
  refine ⟨?_, ?_, ?_, ?_⟩
  · intro c hc
    have hc' : c ∈ (splitScheme s).1 := hc
    have h3 := splitScheme_fst_no_special s c hc'
    exact ⟨h3.1, h3.2.1⟩
  · intro c hc
    have hc' : c ∈ (if (splitScheme s).2.take 2 = ['/', '/']
        then splitNetloc ((splitScheme s).2.drop 2)
        else ([], (splitScheme s).2)).1 := hc
    by_cases ht : (splitScheme s).2.take 2 = ['/', '/']
    · rw [if_pos ht] at hc'
      have hw := List.mem_takeWhile_imp hc'
      refine ⟨?_, ?_⟩ <;> (intro hx; subst hx; simp [netlocStop] at hw)
    · rw [if_neg ht] at hc'
      simp at hc'
  · intro c hc
    have hc' : c ∈ (splitOnFirst '?' (splitOnFirst '#'
        (if (splitScheme s).2.take 2 = ['/', '/']
         then splitNetloc ((splitScheme s).2.drop 2)
         else ([], (splitScheme s).2)).2).1).1 := hc
    constructor
    · intro hx
      subst hx
      exact not_mem_splitOnFirst_fst '?' _ hc'
    · intro hx
      subst hx
      exact not_mem_splitOnFirst_fst '#' _ (mem_splitOnFirst_fst_sub '?' _ _ hc')
  · intro hc
    have hc' : '#' ∈ ((splitOnFirst '?' (splitOnFirst '#'
        (if (splitScheme s).2.take 2 = ['/', '/']
         then splitNetloc ((splitScheme s).2.drop 2)
         else ([], (splitScheme s).2)).2).1).2).getD [] := hc
    rcases hx : (splitOnFirst '?' (splitOnFirst '#'
        (if (splitScheme s).2.take 2 = ['/', '/']
         then splitNetloc ((splitScheme s).2.drop 2)
         else ([], (splitScheme s).2)).2).1).2 with _ | m
    · rw [hx] at hc'
      simp at hc'
    · rw [hx] at hc'
      simp at hc'
      exact not_mem_splitOnFirst_fst '#' _ (splitOnFirst_snd_sub '?' '#' _ _ hx hc')

theorem dset_of_not_found [DecidableEq κ] (d : List (κ × β)) (k : κ) (v : β)
    (h : dlookup d k = none) : dset d k v = d ++ [(k, v)] := by
  induction d with
  | nil => rfl
  | cons hd t ih =>
    by_cases hk : hd.1 = k
    · simp [dlookup, hk] at h
    · simp only [dset, if_neg hk, List.cons_append]
      rw [ih (by simpa [dlookup, hk] using h)]

/-- `urlsplit` of the device base URL glued onto a URL: the scheme is
`http` and the base host lands at the head of the netloc. -/
theorem urlsplit_http_base (hp u : List Char) (hp2 : ∀ c ∈ hp, netlocStop c = false) :
    urlsplit (("http://".toList ++ hp) ++ u) =
      ⟨"http".toList, hp ++ u.takeWhile (fun c => ¬ netlocStop c),
       (splitOnFirst '?' (splitOnFirst '#' (u.dropWhile (fun c => ¬ netlocStop c))).1).1,
       ((splitOnFirst '?' (splitOnFirst '#'
           (u.dropWhile (fun c => ¬ netlocStop c))).1).2).getD [],
       ((splitOnFirst '#' (u.dropWhile (fun c => ¬ netlocStop c))).2).getD []⟩ := by
  have h0 : ("http://".toList ++ hp) ++ u =
      'h' :: 't' :: 't' :: 'p' :: ':' :: '/' :: '/' :: (hp ++ u) := by
    have he : "http://".toList = ['h', 't', 't', 'p', ':', '/', '/'] := rfl
    rw [he]
    simp
  have hsf : splitOnFirst ':'
      ('h' :: 't' :: 't' :: 'p' :: ':' :: '/' :: '/' :: (hp ++ u)) =
      (['h', 't', 't', 'p'], some ('/' :: '/' :: (hp ++ u))) := rfl
  have hss := splitScheme_accepts _ ('/' :: '/' :: (hp ++ u)) 'h' ['t', 't', 'p'] hsf
    ⟨by decide, by decide⟩
  rw [h0]
  unfold urlsplit
  rw [hss]
  show (⟨['h', 't', 't', 'p'].map Char.toLower, (splitNetloc (hp ++ u)).1,
      (splitOnFirst '?' (splitOnFirst '#' (splitNetloc (hp ++ u)).2).1).1,
      ((splitOnFirst '?' (splitOnFirst '#' (splitNetloc (hp ++ u)).2).1).2).getD [],
      ((splitOnFirst '#' (splitNetloc (hp ++ u)).2).2).getD []⟩ : SplitResult) = _
  have h1 : (splitNetloc (hp ++ u)).1 = hp ++ u.takeWhile (fun c => ¬ netlocStop c) := by
    unfold splitNetloc
    exact takeWhile_append_all _ hp u (fun c hc => by simp [hp2 c hc])
  have h2 : (splitNetloc (hp ++ u)).2 = u.dropWhile (fun c => ¬ netlocStop c) := by
    unfold splitNetloc
    exact dropWhile_append_all _ hp u (fun c hc => by simp [hp2 c hc])
  rw [h1, h2]
  rfl

/-- `urlunsplit` with a scheme and a nonempty netloc starts with
`scheme://netloc`. -/
theorem urlunsplit_netloc_decomp (r : SplitResult) (hs : r.scheme ≠ [])
    (hn : r.netloc ≠ []) :
    ∃ tail, urlunsplit r = r.scheme ++ ':' :: '/' :: '/' :: (r.netloc ++ tail) := by
  refine ⟨(if r.path ≠ [] ∧ r.path.head? ≠ some '/' then '/' :: r.path else r.path) ++
    ((if r.query = [] then [] else '?' :: r.query) ++
      (if r.fragment = [] then [] else '#' :: r.fragment)), ?_⟩
  by_cases h1 : r.path ≠ [] ∧ r.path.head? ≠ some '/' <;>
  by_cases h2 : r.query = [] <;>
  by_cases h3 : r.fragment = [] <;>
    simp [urlunsplit, h1, h2, h3, hn, hs, List.append_assoc]

/-- C7: `expand_url` cache-busting.  With the device base URL
`http://<host:port>`: when the input URL carries no `mopt` query parameter,
the result's query parses back to a `mopt` pair equal to the `YYYYMMDD` day
string, and the result decomposes as `A ++ day ++ B` with `A`, `B`
independent of the day — so two calls on the same day are byte-identical
and calls on different days differ only in the `mopt` value; when a `mopt`
parameter is already present, the result is day-independent and its parsed
query still carries the pre-existing `mopt` value; a relative (no-netloc)
URL is prefixed with the device base URL. -/
theorem expand_url_mopt (ext : Option String) (hp d u : List Char)
    (hd1 : d ≠ []) (hd2 : ∀ c ∈ d, c.isDigit = true)
    (hp1 : hp ≠ []) (hp2 : ∀ c ∈ hp, netlocStop c = false) :
    (dlookup (dictOfPairs (parse_qsl (urlsplit u).query)) moptKey = none →
      (moptKey, d) ∈ parse_qsl (extractQuery
          (expand_url ext ("http://".toList ++ hp) d u)) ∧
      ∃ A B, ∀ dv : List Char, dv ≠ [] → (∀ c ∈ dv, c.isDigit = true) →
        expand_url ext ("http://".toList ++ hp) dv u = A ++ dv ++ B) ∧
    (∀ v, dlookup (dictOfPairs (parse_qsl (urlsplit u).query)) moptKey = some v →
      (∀ dv : List Char, expand_url ext ("http://".toList ++ hp) dv u =
          (if (urlsplit u).netloc = [] then ("http://".toList ++ hp) ++ u else u)) ∧
      dlookup (dictOfPairs (parse_qsl (extractQuery
          (expand_url ext ("http://".toList ++ hp) d u)))) moptKey = some v) ∧
    ((urlsplit u).netloc = [] →
      ∃ rest, expand_url ext ("http://".toList ++ hp) d u =
        ("http://".toList ++ hp) ++ rest) := by
  refine ⟨?_, ?_, ?_⟩
  · intro hq
    have hExp : ∀ dv : List Char, expand_url ext ("http://".toList ++ hp) dv u =
        urlunsplit { urlsplit (if (urlsplit u).netloc = []
            then ("http://".toList ++ hp) ++ u else u) with
          query := urlencode (dset (dictOfPairs (parse_qsl (urlsplit u).query))
            moptKey dv) } := by
      intro dv
      simp only [expand_url, hq]
    set q0 := dictOfPairs (parse_qsl (urlsplit u).query)
    set url1 := if (urlsplit u).netloc = [] then ("http://".toList ++ hp) ++ u else u
    have hdset : ∀ dv : List Char, dset q0 moptKey dv = q0 ++ [(moptKey, dv)] :=
      fun dv => dset_of_not_found q0 moptKey dv hq
    have hcomp := urlsplit_components url1
    have hQhash : ∀ dv : List Char, '#' ∉ urlencode (q0 ++ [(moptKey, dv)]) :=
      fun dv hmem => mem_urlencode_ne _ _ hmem rfl
    have hQne : ∀ dv : List Char, dv ≠ [] → (∀ c ∈ dv, c.isDigit = true) →
        urlencode (q0 ++ [(moptKey, dv)]) ≠ [] := by
      intro dv h1 h2 h0
      have hmem := mem_parse_qsl_urlencode q0 dv h1 h2
      rw [h0, show parse_qsl ([] : List Char) = [] from rfl] at hmem
      exact List.not_mem_nil _ hmem
    constructor
    · rw [hExp d, hdset d,
        extractQuery_set_query (urlsplit url1) _ hcomp.1 hcomp.2.1 hcomp.2.2.1
          (hQhash d) (hQne d hd1 hd2)]
      exact mem_parse_qsl_urlencode q0 d hd1 hd2
    · obtain ⟨E, hEne, hEdec⟩ := urlencode_last_decomp q0
      refine ⟨urlunsplit { urlsplit url1 with query := [], fragment := [] } ++ '?' :: E,
        (if (urlsplit url1).fragment = [] then []
         else '#' :: (urlsplit url1).fragment), ?_⟩
      intro dv h1 h2
      rw [hExp dv, hdset dv,
        urlunsplit_set_query_decomp (urlsplit url1) _ (hQne dv h1 h2),
        hEdec dv, quote_plus_digits dv h2]
      simp [List.append_assoc]
  · intro v hq
    have hExp : ∀ dv : List Char, expand_url ext ("http://".toList ++ hp) dv u =
        (if (urlsplit u).netloc = [] then ("http://".toList ++ hp) ++ u else u) := by
      intro dv
      simp only [expand_url, hq]
    refine ⟨hExp, ?_⟩
    rw [hExp d]
    by_cases hnet : (urlsplit u).netloc = []
    · rw [if_pos hnet]
      have hb1 : '?' ∉ "http://".toList ++ hp := by
        intro hmem
        rcases List.mem_append.1 hmem with h | h
        · exact absurd h (by decide)
        · exact absurd (hp2 _ h) (by decide)
      have hb2 : '#' ∉ "http://".toList ++ hp := by
        intro hmem
        rcases List.mem_append.1 hmem with h | h
        · exact absurd h (by decide)
        · exact absurd (hp2 _ h) (by decide)
      rw [extractQuery_append _ u hb1 hb2, ← urlsplit_query_eq_extract]
      exact hq
    · rw [if_neg hnet, ← urlsplit_query_eq_extract]
      exact hq
  · intro hnet
    rcases hdl : dlookup (dictOfPairs (parse_qsl (urlsplit u).query)) moptKey with _ | v
    · have hExp : expand_url ext ("http://".toList ++ hp) d u =
          urlunsplit { urlsplit (("http://".toList ++ hp) ++ u) with
            query := urlencode (dset (dictOfPairs (parse_qsl (urlsplit u).query))
              moptKey d) } := by
        simp only [expand_url, hdl, hnet, if_true, eq_self_iff_true]
      rw [hExp, urlsplit_http_base hp u hp2]
      have hrec : { (⟨"http".toList, hp ++ u.takeWhile (fun c => ¬ netlocStop c),
          (splitOnFirst '?' (splitOnFirst '#'
            (u.dropWhile (fun c => ¬ netlocStop c))).1).1,
          ((splitOnFirst '?' (splitOnFirst '#'
            (u.dropWhile (fun c => ¬ netlocStop c))).1).2).getD [],
          ((splitOnFirst '#' (u.dropWhile (fun c => ¬ netlocStop c))).2).getD []⟩ :
            SplitResult) with
          query := urlencode (dset (dictOfPairs (parse_qsl (urlsplit u).query))
            moptKey d) } =
          ⟨"http".toList, hp ++ u.takeWhile (fun c => ¬ netlocStop c),
          (splitOnFirst '?' (splitOnFirst '#'
            (u.dropWhile (fun c => ¬ netlocStop c))).1).1,
          urlencode (dset (dictOfPairs (parse_qsl (urlsplit u).query)) moptKey d),
          ((splitOnFirst '#' (u.dropWhile (fun c => ¬ netlocStop c))).2).getD []⟩ := rfl
      rw [hrec]
      obtain ⟨tail, htail⟩ := urlunsplit_netloc_decomp
        ⟨"http".toList, hp ++ u.takeWhile (fun c => ¬ netlocStop c),
         (splitOnFirst '?' (splitOnFirst '#'
           (u.dropWhile (fun c => ¬ netlocStop c))).1).1,
         urlencode (dset (dictOfPairs (parse_qsl (urlsplit u).query)) moptKey d),
         ((splitOnFirst '#' (u.dropWhile (fun c => ¬ netlocStop c))).2).getD []⟩
        (by simp) (by simp [hp1])
      refine ⟨u.takeWhile (fun c => ¬ netlocStop c) ++ tail, ?_⟩
      rw [htail]
      have hcat : "http://".toList = "http".toList ++ [':', '/', '/'] := rfl
      rw [hcat]
      simp [List.append_assoc]
    · have hExp : expand_url ext ("http://".toList ++ hp) d u =
          (if (urlsplit u).netloc = [] then ("http://".toList ++ hp) ++ u else u) := by
        simp only [expand_url, hdl]
      rw [hExp, if_pos hnet]
      exact ⟨u, rfl⟩

theorem expand_url_mopt_witness :
    ("20261012".toList ≠ [] ∧ (∀ c ∈ "20261012".toList, c.isDigit = true) ∧
      "h:6680".toList ≠ [] ∧ (∀ c ∈ "h:6680".toList, netlocStop c = false)) ∧
    (moptKey, "20261012".toList) ∈ parse_qsl (extractQuery
        (expand_url none ("http://".toList ++ "h:6680".toList) "20261012".toList
          "/a.png?x=1".toList)) := by
  refine ⟨by decide, ?_⟩
  exact ((expand_url_mopt none "h:6680".toList "20261012".toList "/a.png?x=1".toList
    (by decide) (by decide) (by decide) (by decide)).1 (by decide)).1

/-- C4: `restore_snapshot` on a snapshot captured in the Idle state runs to
completion without raising, yet leaves the snapshot in place — the
single-use discard (`self.snapshot = None`) sits inside the
playing/paused-only branch of the source. -/
theorem restore_snapshot_idle_keeps_snapshot :
    (MopidySpeaker.restore_snapshot c4dev c4s).exc = none ∧
    (MopidySpeaker.restore_snapshot c4dev c4s).state.snapshot = some c4snap := by
  refine ⟨rfl, ?_⟩
  decide

end Mopidy
